import Mathlib

/-!
Shallow embedding of the pixijs-interpolated-ticker repository.

Two subsystems are embedded from the source:

* ContainerInterpolator (src/unnamed/part_001, final variant, lines 510-848):
  capture / blend / unblend over a struct-of-arrays snapshot store.
* InterpolatedTicker (src/src/InterpolatedTicker.ts, final variant, lines
  543-1100): the fixed-timestep loop (accumulator, speed setter, render
  throttle, start/stop) and the slot-allocating capture pass.

JavaScript numbers are modelled as elements of a linear ordered field
(instantiated at Rat for executable statements and at Real where the
mathematical constant pi is involved).  Float32Array stores and the JS object
heap are modelled as total functions from natural-number indices; the scene
graph is a World function from node ids to mutable node records plus an
inductive SceneForest giving the traversal shape (PixiJS scene graphs are
trees: every container has at most one parent).
-/

set_option maxHeartbeats 1000000
set_option linter.unusedSectionVars false

/-- Pointwise update of an index-keyed store (models a JS array write or a
property write on a heap object). -/
def updFun {β : Type} (f : ℕ → β) (i : ℕ) (v : β) : ℕ → β :=
  fun j => if j = i then v else f j

/-- The six interpolated properties of a container:
position x/y, scale x/y, rotation, alpha. -/
structure Props (α : Type) where
  x : α
  y : α
  scaleX : α
  scaleY : α
  rotation : α
  alpha : α
deriving DecidableEq

/-- Traversal shape of a list of scene subtrees (a forest), first-order so
that every walk is structurally recursive: `cons id children rest` is a node
with id `id` and child forest `children`, followed by its sibling forest
`rest`.  A single subtree is the forest `cons id children nil`. -/
inductive SceneForest : Type where
  | nil : SceneForest
  | cons : ℕ → SceneForest → SceneForest → SceneForest

/-- Truncation toward zero, as performed by the JavaScript % operator on its
implied quotient. -/
def jsTrunc {α : Type} [LinearOrderedField α] [FloorRing α] (x : α) : ℤ :=
  if 0 ≤ x then ⌊x⌋ else ⌈x⌉

/-- The JavaScript remainder operator a % b (result has the sign of the
dividend; b = 0 is a NaN in JS and is not modelled). -/
def jsMod {α : Type} [LinearOrderedField α] [FloorRing α] (a b : α) : α :=
  a - b * (jsTrunc (a / b) : ℤ)

/-- Positional wraparound fold
d = ((d + range/2) % range + range) % range - range/2
(InterpolatedTicker.ts lines 1006-1007). -/
def wrapDelta {α : Type} [LinearOrderedField α] [FloorRing α]
    (range d : α) : α :=
  jsMod (jsMod (d + range / 2) range + range) range - range / 2

/-- Applies the wraparound fold only when a range is configured. -/
def foldWrap {α : Type} [LinearOrderedField α] [FloorRing α]
    (range : Option α) (d : α) : α :=
  match range with
  | none => d
  | some r => wrapDelta r d

/-- t = Math.min(1, Math.max(0, t)) — the clamp at the top of
ContainerInterpolator.blend (part_001 line 689). -/
def clampUnit {α : Type} [LinearOrderedField α] (t : α) : α :=
  min 1 (max 0 t)

/-- factor = rawFactor > 1 ? 1 : rawFactor < 0 ? 0 : rawFactor — the clamp
at the top of InterpolatedTicker._interpolateContainers (line 967). -/
def clampFactor {α : Type} [LinearOrderedField α] (raw : α) : α :=
  if raw > 1 then 1 else if raw < 0 then 0 else raw

/-- Rotation wraparound of InterpolatedTicker._interpolateContainers
(lines 1047-1048): a single fold of the delta by 2·pi, applied when the
delta leaves [-pi, pi]. -/
def foldRotation {α : Type} [LinearOrderedField α] (piVal d : α) : α :=
  if d > piVal then d - 2 * piVal
  else if d < -piVal then d + 2 * piVal
  else d

/-- The four maximum-delta limits of ContainerInterpolator
(defaults 100, 1, pi/2, 0.5). -/
structure CIConfig (α : Type) where
  maxDeltaPosition : α
  maxDeltaScale : α
  maxDeltaRotation : α
  maxDeltaAlpha : α

/-- The four auto-limit fields of the final InterpolatedTicker variant
(defaults 100, 1, pi/4, 0.5). -/
structure TickerLimits (α : Type) where
  autoLimitPosition : α
  autoLimitScale : α
  autoLimitRotation : α
  autoLimitAlpha : α

namespace ContainerInterpolator

/-- A scene-graph container as read/written by ContainerInterpolator. -/
structure Node (α : Type) where
  props : Props α
  destroyed : Bool
  visible : Bool
  culled : Bool
  isInterpolated : Option Bool
  hasInterpolatedChildren : Option Bool
deriving DecidableEq

/-- The JS object heap: container id to container record. -/
abbrev World (α : Type) := ℕ → Node α

/-- The interpolator's own state: the containers array, the two
struct-of-arrays snapshot buffers (start and end), counters and capacity.
`diagnostics` counts console.error capacity reports; `defaultEvals` is a
ghost instrumentation counter of how many times the default-eligibility
expression (visible && !culled) has been evaluated for each node. -/
structure State (α : Type) where
  containers : ℕ → Option ℕ
  startArr : ℕ → Props α
  endArr : ℕ → Props α
  count : ℕ
  prevCount : ℕ
  capacity : ℕ
  maxCapacity : ℕ
  diagnostics : ℕ
  defaultEvals : ℕ → ℕ

/-- Heap plus interpolator state, threaded through the passes. -/
abbrev WS (α : Type) := World α × State α

variable {α : Type} [LinearOrderedField α]

/-- Ghost bump of the default-eligibility evaluation counter. -/
def bumpEval (s : State α) (id : ℕ) : State α :=
  { s with defaultEvals := updFun s.defaultEvals id (s.defaultEvals id + 1) }

/-- container.isInterpolated ??= true (part_001 line 624). -/
def cacheTrue (w : World α) (id : ℕ) : World α :=
  updFun w id { w id with isInterpolated := some true }

/-- Reserve a container index and store the container reference and its six
start values (part_001 lines 626-652): i = count++ happens before the
capacity check; on exhausted capacity a diagnostic is reported and nothing
is stored (and the caller skips the children); otherwise the buffer may
double (clamped to maxCapacity by resize) and the slot is written.
Returns (stored?, new state). -/
def store (id : ℕ) (ws : WS α) : Bool × WS α :=
  let w := ws.1
  let s := ws.2
  let i := s.count
  let s1 := { s with count := i + 1 }
  if i ≥ s1.capacity then
    if s1.capacity ≥ s1.maxCapacity then
      (false, (w, { s1 with diagnostics := s1.diagnostics + 1 }))
    else
      let s2 := { s1 with capacity := min (s1.capacity * 2) s1.maxCapacity }
      (true, (w, { s2 with
        containers := updFun s2.containers i (some id),
        startArr := updFun s2.startArr i (w id).props }))
  else
    (true, (w, { s1 with
      containers := updFun s1.containers i (some id),
      startArr := updFun s1.startArr i (w id).props }))

/-- One node of the capture traversal (part_001 lines 605-664), with the
walk over the child list abstracted as `recurse`.  A destroyed node and its
subtree are skipped; isInterpolated defaults to visible && !culled;
hasInterpolatedChildren defaults to the node's own eligibility; a capacity
overflow ends the subtree abruptly (the early return skips the children). -/
def captureStep (id : ℕ) (recurse : WS α → WS α) (ws : WS α) : WS α :=
  let n := ws.1 id
  if n.destroyed then ws
  else
    let isInterp := n.isInterpolated.getD (n.visible && !n.culled)
    let hasChildren := n.hasInterpolatedChildren.getD isInterp
    let ws1 : WS α :=
      if n.isInterpolated = none then (ws.1, bumpEval ws.2 id) else ws
    if isInterp then
      let ws2 : WS α :=
        if n.isInterpolated = none then (cacheTrue ws1.1 id, ws1.2) else ws1
      let r := store id ws2
      if r.1 then (if hasChildren then recurse r.2 else r.2) else r.2
    else
      if hasChildren then recurse ws1 else ws1

/-- Depth-first pre-order walk of a forest of subtrees (the for-loop over
children at part_001 lines 655-664). -/
def captureList : SceneForest → WS α → WS α
  | SceneForest.nil, ws => ws
  | SceneForest.cons id cs rest, ws =>
      captureList rest (captureStep id (captureList cs) ws)

/-- The tail-pointer release loop of capture (part_001 lines 669-672):
for j from count to prevCount, containers[j] = undefined. -/
def clearTail (lo hi : ℕ) (s : State α) : State α :=
  (List.range' lo (hi - lo)).foldl
    (fun s j => { s with containers := updFun s.containers j none }) s

/-- ContainerInterpolator.capture (part_001 lines 590-676): reset the
counter, walk the target subtree (a forest of one), release tail pointers,
save the count. -/
def capture (root : SceneForest) (ws : WS α) : WS α :=
  let ws0 : WS α := (ws.1, { ws.2 with count := 0 })
  let ws1 := captureList root ws0
  let s2 := clearTail ws1.2.count ws1.2.prevCount ws1.2
  (ws1.1, { s2 with prevCount := s2.count })

/-- The per-container body of ContainerInterpolator.blend
(part_001 lines 730-771): per-property deltas against the start snapshot,
each property blended only when its |delta| is within the configured
maximum (the end values have already been captured by the caller). -/
def blendProps (cfg : CIConfig α) (t : α) (start cur : Props α) : Props α :=
  let deltaPositionX := cur.x - start.x
  let deltaPositionY := cur.y - start.y
  let deltaScaleX := cur.scaleX - start.scaleX
  let deltaScaleY := cur.scaleY - start.scaleY
  let deltaRotation := cur.rotation - start.rotation
  let deltaAlpha := cur.alpha - start.alpha
  { x :=
      if |deltaPositionX| ≤ cfg.maxDeltaPosition ∧
          |deltaPositionY| ≤ cfg.maxDeltaPosition then
        start.x + deltaPositionX * t
      else cur.x
    y :=
      if |deltaPositionX| ≤ cfg.maxDeltaPosition ∧
          |deltaPositionY| ≤ cfg.maxDeltaPosition then
        start.y + deltaPositionY * t
      else cur.y
    scaleX :=
      if |deltaScaleX| ≤ cfg.maxDeltaScale ∧
          |deltaScaleY| ≤ cfg.maxDeltaScale then
        start.scaleX + deltaScaleX * t
      else cur.scaleX
    scaleY :=
      if |deltaScaleX| ≤ cfg.maxDeltaScale ∧
          |deltaScaleY| ≤ cfg.maxDeltaScale then
        start.scaleY + deltaScaleY * t
      else cur.scaleY
    rotation :=
      if |deltaRotation| ≤ cfg.maxDeltaRotation then
        start.rotation + deltaRotation * t
      else cur.rotation
    alpha :=
      if |deltaAlpha| ≤ cfg.maxDeltaAlpha then
        start.alpha + deltaAlpha * t
      else cur.alpha }

/-- One iteration of the blend loop (part_001 lines 720-771) at slot i.  A
missing or destroyed reference is skipped; otherwise the container's current
values are captured into the end arrays (the assignments embedded in the
delta computation, lines 731-736) and the blended values are written back
onto the container. -/
def blendStepAt (cfg : CIConfig α) (t : α) (ws : WS α) (i : ℕ) : WS α :=
  match ws.2.containers i with
  | none => ws
  | some id =>
    let n := ws.1 id
    if n.destroyed then ws
    else
      let s := { ws.2 with endArr := updFun ws.2.endArr i n.props }
      (updFun ws.1 id { n with props := blendProps cfg t (s.startArr i) n.props },
       s)

/-- The loop of ContainerInterpolator.blend over an explicit list of slot
indices. -/
def blendAux (cfg : CIConfig α) (t : α) (idxs : List ℕ) (ws : WS α) : WS α :=
  idxs.foldl (blendStepAt cfg t) ws

/-- ContainerInterpolator.blend (part_001 lines 686-772): clamp t to [0,1]
and blend every tracked slot. -/
def blend (cfg : CIConfig α) (t : α) (ws : WS α) : WS α :=
  blendAux cfg (clampUnit t) (List.range ws.2.count) ws

/-- One iteration of the unblend loop (part_001 lines 792-806) at slot i:
write the end-snapshot (true) values back onto the live tracked container,
unconditionally. -/
def unblendStepAt (ws : WS α) (i : ℕ) : WS α :=
  match ws.2.containers i with
  | none => ws
  | some id =>
    let n := ws.1 id
    if n.destroyed then ws
    else (updFun ws.1 id { n with props := ws.2.endArr i }, ws.2)

/-- The loop of ContainerInterpolator.unblend over an explicit list of slot
indices. -/
def unblendAux (idxs : List ℕ) (ws : WS α) : WS α :=
  idxs.foldl unblendStepAt ws

/-- ContainerInterpolator.unblend (part_001 lines 779-807). -/
def unblend (ws : WS α) : WS α :=
  unblendAux (List.range ws.2.count) ws

end ContainerInterpolator

namespace InterpolatedTicker

/-- A scene-graph container as read/written by the final InterpolatedTicker
variant: the tri-state interpolation flag, the cached slot index and the six
interpolated properties.  The interpolatedChildren override only selects
which children are walked and is represented by the SceneForest shape. -/
structure Node where
  props : Props ℚ
  destroyed : Bool
  interpolation : Option Bool
  interpIdx : Option ℕ
deriving DecidableEq

/-- The JS object heap for the ticker: container id to container record. -/
abbrev World := ℕ → Node

/-- The capture-relevant ticker state (InterpolatedTicker.ts lines 622-628
and the _prev property buffers).  `releasedIdx` is the free list (the JS
array end is the list head); `prevArr` stands for the six _prev buffers;
`defaultEvals` is a ghost instrumentation counter of evaluations of
getDefaultInterpolation.  The _shadow buffers are used only by
_interpolateContainers and _restoreContainers, whose per-container bodies
are embedded separately as pure functions. -/
structure CaptureState where
  idxContainers : ℕ → Option ℕ
  prevArr : ℕ → Props ℚ
  idxCount : ℕ
  prevIdxCount : ℕ
  maxIdx : ℕ
  capacity : ℕ
  releasedIdx : List ℕ
  defaultEvals : ℕ → ℕ

/-- Heap plus ticker state, threaded through passes. -/
abbrev WS := World × CaptureState

/-- InterpolatedTicker._markReleased (lines 1092-1099): if the container has
a slot, push it onto the free list and clear the container's slot. -/
def markReleased (oid : Option ℕ) (ws : WS) : WS :=
  match oid with
  | none => ws
  | some id =>
    match (ws.1 id).interpIdx with
    | none => ws
    | some j =>
      (updFun ws.1 id { ws.1 id with interpIdx := none },
       { ws.2 with releasedIdx := j :: ws.2.releasedIdx })

/-- Lines 929-952 of _captureContainersTraverseSubtree: resize on demand,
resolve the slot index (retain ?? recycle ?? allocate), remember it on the
container, store the six current values at the slot in the _prev buffers and
append the container to the dense tracked list. -/
def resizeOnDemand (s : CaptureState) : CaptureState :=
  if s.maxIdx + 1 ≥ s.capacity then { s with capacity := s.capacity * 2 } else s

def allocStore (id : ℕ) (ws : WS) : WS :=
  let w := ws.1
  let s := ws.2
  let s1 := resizeOnDemand s
  let r : ℕ × World × CaptureState :=
    match (w id).interpIdx with
    | some j => (j, w, s1)
    | none =>
      match s1.releasedIdx with
      | j :: rest =>
        (j, updFun w id { w id with interpIdx := some j },
         { s1 with releasedIdx := rest })
      | [] =>
        (s1.maxIdx, updFun w id { w id with interpIdx := some s1.maxIdx },
         { s1 with maxIdx := s1.maxIdx + 1 })
  let index := r.1
  let w2 := r.2.1
  let s2 := r.2.2
  (w2, { s2 with
    prevArr := updFun s2.prevArr index (w2 id).props,
    idxContainers := updFun s2.idxContainers s2.idxCount (some id),
    idxCount := s2.idxCount + 1 })

/-- One node of _captureContainersTraverseSubtree (lines 911-960), with the
walk over the child list abstracted as `recurse`: a destroyed node or an
explicitly opted-out node is skipped with its subtree; an unset flag
evaluates getDefaultInterpolation (modelled by `pred`) once and caches the
result as true or false (a false result returns, skipping the subtree). -/
def captureStep (pred : ℕ → Bool) (id : ℕ) (recurse : WS → WS) (ws : WS) : WS :=
  let n := ws.1 id
  if n.destroyed then ws
  else if n.interpolation = some false then ws
  else
    match n.interpolation with
    | some _ => recurse (allocStore id ws)
    | none =>
      let s1 := { ws.2 with defaultEvals := updFun ws.2.defaultEvals id (ws.2.defaultEvals id + 1) }
      if pred id then
        recurse (allocStore id (updFun ws.1 id { ws.1 id with interpolation := some true }, s1))
      else
        (updFun ws.1 id { ws.1 id with interpolation := some false }, s1)

/-- Depth-first pre-order walk of a forest of subtrees (lines 954-959). -/
def captureList (pred : ℕ → Bool) : SceneForest → WS → WS
  | SceneForest.nil, ws => ws
  | SceneForest.cons id cs rest, ws =>
      captureList pred rest (captureStep pred id (captureList pred cs) ws)

/-- InterpolatedTicker._captureContainers (lines 895-909): reset the dense
counter, walk the stage, then run the tail-release loop
for i from _maxIdx to _prevIdxContainersCount, and save _maxIdx as the new
_prevIdxContainersCount. -/
def captureContainers (pred : ℕ → Bool) (root : SceneForest) (ws : WS) : WS :=
  let ws0 : WS := (ws.1, { ws.2 with idxCount := 0 })
  let ws1 := captureList pred root ws0
  let ws2 := (List.range' ws1.2.maxIdx (ws1.2.prevIdxCount - ws1.2.maxIdx)).foldl
    (fun ws i =>
      let ws' := markReleased (ws.2.idxContainers i) ws
      (ws'.1, { ws'.2 with idxContainers := updFun ws'.2.idxContainers i none }))
    ws1
  (ws2.1, { ws2.2 with prevIdxCount := ws2.2.maxIdx })

/-- The per-container body of _interpolateContainers (lines 992-1064) as a
pure function from the previous snapshot and the current (true) values to
the interpolated values: position deltas are wraparound-folded when a range
is configured, the rotation delta is folded once by 2·pi, and each property
is written only when its (post-fold) delta is within the auto-limit;
otherwise the current value is left in place.  The factor has already been
clamped by the caller (line 967). -/
def blendStep {α : Type} [LinearOrderedField α] [FloorRing α]
    (lims : TickerLimits α) (piVal factor : α) (wrap : Option (α × α))
    (prev cur : Props α) : Props α :=
  let dx := foldWrap (wrap.map Prod.fst) (cur.x - prev.x)
  let dy := foldWrap (wrap.map Prod.snd) (cur.y - prev.y)
  let scaleDx := cur.scaleX - prev.scaleX
  let scaleDy := cur.scaleY - prev.scaleY
  let rotationDelta := foldRotation piVal (cur.rotation - prev.rotation)
  let alphaDelta := cur.alpha - prev.alpha
  { x :=
      if |dx| ≤ lims.autoLimitPosition ∧ |dy| ≤ lims.autoLimitPosition then
        prev.x + factor * dx
      else cur.x
    y :=
      if |dx| ≤ lims.autoLimitPosition ∧ |dy| ≤ lims.autoLimitPosition then
        prev.y + factor * dy
      else cur.y
    scaleX :=
      if |scaleDx| ≤ lims.autoLimitScale ∧ |scaleDy| ≤ lims.autoLimitScale then
        prev.scaleX + factor * scaleDx
      else cur.scaleX
    scaleY :=
      if |scaleDx| ≤ lims.autoLimitScale ∧ |scaleDy| ≤ lims.autoLimitScale then
        prev.scaleY + factor * scaleDy
      else cur.scaleY
    rotation :=
      if |rotationDelta| ≤ lims.autoLimitRotation then
        prev.rotation + factor * rotationDelta
      else cur.rotation
    alpha :=
      if |alphaDelta| ≤ lims.autoLimitAlpha then
        prev.alpha + factor * alphaDelta
      else cur.alpha }

/-- The while-loop of the fixed timestep update (lines 811-816):
while accumulator >= updateIntervalMs, run one update and subtract the
interval.  Returns the number of updates run and the remaining accumulator.
The guard 0 < interval makes the definition total; with a non-positive
interval the JS loop never terminates, which is not modelled. -/
def whileSteps (interval acc : ℚ) : ℕ × ℚ :=
  if h : 0 < interval ∧ interval ≤ acc then
    let r := whileSteps interval (acc - interval)
    (r.1 + 1, r.2)
  else (0, acc)
termination_by (⌈acc / interval⌉).toNat
decreasing_by
  obtain ⟨h1, h2⟩ := h
  have key : (acc - interval) / interval = acc / interval - 1 := by
    field_simp
  have hge : (1 : ℚ) ≤ acc / interval := by
    rw [le_div_iff₀ h1]; linarith
  have hc : (1 : ℤ) ≤ ⌈acc / interval⌉ := by
    have := (Int.le_ceil (acc / interval))
    exact_mod_cast le_trans hge this
  have hsub : ⌈acc / interval - (1 : ℚ)⌉ = ⌈acc / interval⌉ - 1 := by
    exact_mod_cast Int.ceil_sub_int (acc / interval) 1
  rw [key, hsub]
  omega

/-- The scheduler state of the final InterpolatedTicker variant
(lines 590-620): the interval fields, the accumulator, the throttle and the
run flag.  `scheduled` models whether a requestAnimationFrame callback is
pending. -/
structure LoopState where
  targetUpdateIntervalMs : ℚ
  updateIntervalMs : ℚ
  previousTime : ℚ
  accumulator : ℚ
  speed : ℚ
  maxRenderIntervalMs : ℚ
  maxUpdatesPerRender : ℚ
  started : Bool
  scheduled : Bool
  interpolation : Bool
deriving DecidableEq

/-- The observable actions of one presentation attempt, in execution
order. -/
inductive TickEffect where
  | evalStart
  | capture
  | update (ft : ℚ)
  | beforeRender
  | blend (t : ℚ)
  | onRender
  | render
  | restore
  | afterRender
  | evalEnd
deriving DecidableEq

/-- One invocation of the loop callback scheduled by requestAnimationFrame
(lines 781-837).  The pending callback is consumed; if the render throttle
rejects the frame nothing else happens (but a new frame is requested while
started); otherwise the accumulator is clamped and drained, the frame is
blended, rendered and restored, and a new frame is requested while started. -/
def fire (s : LoopState) (now : ℚ) : LoopState × List TickEffect :=
  let renderDelta := now - s.previousTime
  if renderDelta < s.maxRenderIntervalMs then
    ({ s with scheduled := s.started }, [])
  else
    let acc1 := min (s.accumulator + renderDelta) (s.updateIntervalMs * s.maxUpdatesPerRender)
    let r := whileSteps s.updateIntervalMs acc1
    let rawFactor := r.2 / s.updateIntervalMs
    let factor := if rawFactor > 1 then 1 else if rawFactor < 0 then 0 else rawFactor
    ({ s with previousTime := now, accumulator := r.2, scheduled := s.started },
     [TickEffect.evalStart]
       ++ List.flatten (List.replicate r.1 [TickEffect.capture, TickEffect.update s.updateIntervalMs])
       ++ [TickEffect.beforeRender]
       ++ (if s.interpolation then [TickEffect.blend factor] else [])
       ++ [TickEffect.onRender, TickEffect.render]
       ++ (if s.interpolation then [TickEffect.restore] else [])
       ++ [TickEffect.afterRender, TickEffect.evalEnd])

/-- InterpolatedTicker.stop (lines 845-848): clear the run flag.  The
pending requestAnimationFrame callback is not cancelled. -/
def stop (s : LoopState) : LoopState :=
  { s with started := false }

/-- InterpolatedTicker.start (lines 777-843, entry and kick-off only): a
second start while running is a no-op; otherwise set the run flag, record
the baseline time and request the first frame. -/
def start (s : LoopState) (now : ℚ) : LoopState :=
  if s.started then s
  else { s with started := true, previousTime := now, scheduled := true }

/-- The speed setter (lines 739-743): store the multiplier and rescale the
effective update interval. -/
def setSpeed (s : LoopState) (value : ℚ) : LoopState :=
  { s with speed := value, updateIntervalMs := s.targetUpdateIntervalMs / value }

/-- Number of update callbacks in an effect trace. -/
def countUpdates (l : List TickEffect) : ℕ :=
  (l.filter fun e => match e with | TickEffect.update _ => true | _ => false).length

/-- The arguments delivered to the update callback in an effect trace. -/
def updateArgs (l : List TickEffect) : List ℚ :=
  l.filterMap fun e => match e with | TickEffect.update ft => some ft | _ => none

/-- The memoization invariant for getDefaultInterpolation: every container
has been evaluated at most once; a container whose tri-state flag is still
unset has never been evaluated; a container evaluated exactly once carries
the cached predicate result on its flag. -/
def memoInv (pred : ℕ → Bool) (ws : WS) : Prop :=
  ∀ id, ws.2.defaultEvals id ≤ 1
    ∧ ((ws.1 id).interpolation = none → ws.2.defaultEvals id = 0)
    ∧ (ws.2.defaultEvals id = 1 → (ws.1 id).interpolation = some (pred id))

end InterpolatedTicker

/-! Concrete test fixtures (worlds, states and traversal shapes used by the
concrete statements below). -/

/-- PixiJS default transform: position 0/0, scale 1/1, rotation 0, alpha 1. -/
def defaultProps : Props ℚ := ⟨0, 0, 1, 1, 0, 1⟩

/-- A scheduler state as configured by the constructor with
updateIntervalMs = 10 at speed 1, running with a frame pending
(maxRenderFPS unset, so maxRenderIntervalMs = -1; maxUpdatesPerRender
defaults to 10; interpolation defaults to true). -/
def tickerState10 : InterpolatedTicker.LoopState :=
  { targetUpdateIntervalMs := 10, updateIntervalMs := 10, previousTime := 0,
    accumulator := 0, speed := 1, maxRenderIntervalMs := -1,
    maxUpdatesPerRender := 10, started := true, scheduled := true,
    interpolation := true }

/-- Ticker heap of claim C4: seven never-destroyed containers with the
interpolation flag already cached true and no slot assigned. -/
def c4World : InterpolatedTicker.World :=
  fun _ => ⟨defaultProps, false, some true, none⟩

/-- Fresh ticker capture state of claim C4 (initialCapacity 500). -/
def c4State : InterpolatedTicker.CaptureState :=
  ⟨fun _ => none, fun _ => defaultProps, 0, 0, 0, 500, [], fun _ => 0⟩

/-- Claim C4, pass 1: root 0 with children 1, 2, 3, 4 (5 eligible nodes). -/
def c4Forest1 : SceneForest :=
  SceneForest.cons 0
    (SceneForest.cons 1 SceneForest.nil
      (SceneForest.cons 2 SceneForest.nil
        (SceneForest.cons 3 SceneForest.nil
          (SceneForest.cons 4 SceneForest.nil SceneForest.nil))))
    SceneForest.nil

/-- Claim C4, pass 2: root 0 with children 1, 2 (nodes 3 and 4 removed). -/
def c4Forest2 : SceneForest :=
  SceneForest.cons 0
    (SceneForest.cons 1 SceneForest.nil
      (SceneForest.cons 2 SceneForest.nil SceneForest.nil))
    SceneForest.nil

/-- Claim C4, pass 3: root 0 with children 1, 2 and two new nodes 5, 6. -/
def c4Forest3 : SceneForest :=
  SceneForest.cons 0
    (SceneForest.cons 1 SceneForest.nil
      (SceneForest.cons 2 SceneForest.nil
        (SceneForest.cons 5 SceneForest.nil
          (SceneForest.cons 6 SceneForest.nil SceneForest.nil))))
    SceneForest.nil

/-- The three successive ticker capture passes of claim C4, with
getDefaultInterpolation never consulted (all flags are already cached). -/
def c4Run : InterpolatedTicker.WS :=
  InterpolatedTicker.captureContainers (fun _ => true) c4Forest3
    (InterpolatedTicker.captureContainers (fun _ => true) c4Forest2
      (InterpolatedTicker.captureContainers (fun _ => true) c4Forest1
        (c4World, c4State)))

/-- The first two ticker capture passes of claim C4. -/
def c4RunTwo : InterpolatedTicker.WS :=
  InterpolatedTicker.captureContainers (fun _ => true) c4Forest2
    (InterpolatedTicker.captureContainers (fun _ => true) c4Forest1
      (c4World, c4State))

/-- ContainerInterpolator heap of claim C7: eligible containers (flag cached
true, children default) with distinct x positions. -/
def c7World : ContainerInterpolator.World ℚ :=
  fun id => ⟨⟨(id : ℚ), 0, 1, 1, 0, 1⟩, false, true, false, some true, none⟩

/-- Fresh ContainerInterpolator state of claim C7 with
capacity = maxCapacity = 2 (the constructor clamps capacity to
maxCapacity). -/
def c7State : ContainerInterpolator.State ℚ :=
  ⟨fun _ => none, fun _ => defaultProps, fun _ => defaultProps,
   0, 0, 2, 2, 0, fun _ => 0⟩

/-- Claim C7: a tree of three eligible containers (root 0, children 1, 2),
one more than maxCapacity = 2 allows. -/
def c7Forest : SceneForest :=
  SceneForest.cons 0
    (SceneForest.cons 1 SceneForest.nil
      (SceneForest.cons 2 SceneForest.nil SceneForest.nil))
    SceneForest.nil

/-- The ContainerInterpolator limits at their documented defaults, except
maxDeltaRotation which is irrational (pi/2) and is taken as 2 here. -/
def c7Cfg : CIConfig ℚ := ⟨100, 1, 2, 1/2⟩

/-- ContainerInterpolator heap of claim C8: container 0 is invisible, not
culled, never destroyed, with both tri-state flags unset. -/
def c8World : ContainerInterpolator.World ℚ :=
  fun _ => ⟨defaultProps, false, false, false, none, none⟩

/-- Fresh ContainerInterpolator state of claim C8. -/
def c8State : ContainerInterpolator.State ℚ :=
  ⟨fun _ => none, fun _ => defaultProps, fun _ => defaultProps,
   0, 0, 4, 4, 0, fun _ => 0⟩

/-- Claim C8: a single-container tree. -/
def c8Forest : SceneForest := SceneForest.cons 0 SceneForest.nil SceneForest.nil

/-- Claim C10: a root (container 0) with one child (container 1); with the
C8 heap the root is invisible with both tri-state flags unset. -/
def c10Forest : SceneForest :=
  SceneForest.cons 0 (SceneForest.cons 1 SceneForest.nil SceneForest.nil)
    SceneForest.nil

/-- Two successive capture passes over the invisible container of C8. -/
def c8Run : ContainerInterpolator.WS ℚ :=
  ContainerInterpolator.capture c8Forest
    (ContainerInterpolator.capture c8Forest (c8World, c8State))

/-- Parametric scheduler state of claim C3: constructed with
updateIntervalMs = tgt, then the speed setter applied with `spd`. -/
def c3State (tgt spd maxU : ℚ) : InterpolatedTicker.LoopState :=
  InterpolatedTicker.setSpeed
    { targetUpdateIntervalMs := tgt, updateIntervalMs := tgt, previousTime := 0,
      accumulator := 0, speed := 1, maxRenderIntervalMs := -1,
      maxUpdatesPerRender := maxU, started := true, scheduled := true,
      interpolation := true } spd

/-- Heap of the C1 witness: container 5 holds non-default current values. -/
def c1World : ContainerInterpolator.World ℚ :=
  fun _ => ⟨⟨3, 4, 2, 2, 1, 1/2⟩, false, true, false, some true, none⟩

/-- State of the C1 witness: one tracked slot (slot 0 holds container 5),
with a start snapshot differing from the current values. -/
def c1State : ContainerInterpolator.State ℚ :=
  ⟨updFun (fun _ => none) 0 (some 5), fun _ => defaultProps, fun _ => defaultProps,
   1, 1, 4, 4, 0, fun _ => 0⟩

/-! ## Theorems -/

namespace InterpolatedTicker

/-- The while-loop of the fixed-timestep update drains
floor(accumulator / interval) steps and leaves the remainder. -/
theorem whileSteps_eq_floor (interval acc : ℚ) (h1 : 0 < interval) (h0 : 0 ≤ acc) :
    whileSteps interval acc =
      ((⌊acc / interval⌋).toNat, acc - (⌊acc / interval⌋).toNat * interval) := by
  generalize hn : (⌊acc / interval⌋).toNat = n
  induction n generalizing acc with
  | zero =>
    have hflo : 0 ≤ ⌊acc / interval⌋ :=
      Int.floor_nonneg.mpr (div_nonneg h0 (le_of_lt h1))
    have h00 : ⌊acc / interval⌋ = 0 := by omega
    have hlt : acc / interval < 1 := by
      have h2 := Int.lt_floor_add_one (acc / interval)
      rw [h00] at h2
      simpa using h2
    have hacc : acc < interval := (div_lt_one h1).mp hlt
    rw [whileSteps]
    rw [dif_neg (by intro hc; exact absurd hc.2 (not_le.mpr hacc))]
    simp
  | succ k ih =>
    have hflo : 0 ≤ ⌊acc / interval⌋ :=
      Int.floor_nonneg.mpr (div_nonneg h0 (le_of_lt h1))
    have hfk : ⌊acc / interval⌋ = (k : ℤ) + 1 := by omega
    have hge : ((k : ℚ) + 1) ≤ acc / interval := by
      have h2 := Int.floor_le (acc / interval)
      rw [hfk] at h2
      push_cast at h2
      linarith
    have hle : interval ≤ acc := by
      have h3 : (1 : ℚ) ≤ acc / interval := by
        have h4 : (0:ℚ) ≤ (k:ℚ) := by positivity
        linarith
      rw [le_div_iff₀ h1] at h3
      linarith
    have hkey : (acc - interval) / interval = acc / interval - 1 := by
      field_simp
    have hfk2 : ⌊(acc - interval) / interval⌋ = (k : ℤ) := by
      rw [hkey]
      have h4 : ⌊acc / interval - (1:ℚ)⌋ = ⌊acc / interval⌋ - 1 := by
        exact_mod_cast Int.floor_sub_int (acc / interval) 1
      omega
    rw [whileSteps]
    rw [dif_pos ⟨h1, hle⟩]
    have hihle : (0:ℚ) ≤ acc - interval := by linarith
    have hntk : (⌊(acc - interval) / interval⌋).toNat = k := by rw [hfk2]; omega
    rw [ih (acc - interval) hihle hntk]
    simp only [Prod.mk.injEq, true_and]
    push_cast
    ring

theorem whileSteps_10_5 : whileSteps 10 5 = (0, 5) := by
  rw [whileSteps, dif_neg (by norm_num)]

theorem whileSteps_10_15 : whileSteps 10 15 = (1, 5) := by
  rw [whileSteps, dif_pos (by norm_num : (0:ℚ) < 10 ∧ (10:ℚ) ≤ 15)]
  norm_num [whileSteps_10_5]

theorem whileSteps_10_25 : whileSteps 10 25 = (2, 5) := by
  rw [whileSteps, dif_pos (by norm_num : (0:ℚ) < 10 ∧ (10:ℚ) ≤ 25)]
  norm_num [whileSteps_10_15]

theorem whileSteps_5_0 : whileSteps 5 0 = (0, 0) := by
  rw [whileSteps, dif_neg (by norm_num)]

theorem whileSteps_5_5 : whileSteps 5 5 = (1, 0) := by
  rw [whileSteps, dif_pos (by norm_num : (0:ℚ) < 5 ∧ (5:ℚ) ≤ 5)]
  norm_num [whileSteps_5_0]

theorem whileSteps_5_10 : whileSteps 5 10 = (2, 0) := by
  rw [whileSteps, dif_pos (by norm_num : (0:ℚ) < 5 ∧ (5:ℚ) ≤ 10)]
  norm_num [whileSteps_5_5]

theorem whileSteps_5_15 : whileSteps 5 15 = (3, 0) := by
  rw [whileSteps, dif_pos (by norm_num : (0:ℚ) < 5 ∧ (5:ℚ) ≤ 15)]
  norm_num [whileSteps_5_10]

theorem countUpdates_append (a b : List TickEffect) :
    countUpdates (a ++ b) = countUpdates a + countUpdates b := by
  simp [countUpdates, List.filter_append]

theorem countUpdates_updateLoop (n : ℕ) (v : ℚ) :
    countUpdates (List.flatten (List.replicate n [TickEffect.capture, TickEffect.update v])) = n := by
  induction n with
  | zero => rfl
  | succ k ih =>
    rw [List.replicate_succ, List.flatten_cons, countUpdates_append, ih]
    have h1 : countUpdates [TickEffect.capture, TickEffect.update v] = 1 := rfl
    omega

theorem updateArgs_append (a b : List TickEffect) :
    updateArgs (a ++ b) = updateArgs a ++ updateArgs b := by
  simp [updateArgs]

theorem updateArgs_updateLoop (n : ℕ) (v : ℚ) :
    updateArgs (List.flatten (List.replicate n [TickEffect.capture, TickEffect.update v])) =
      List.replicate n v := by
  induction n with
  | zero => rfl
  | succ k ih =>
    rw [List.replicate_succ, List.flatten_cons, updateArgs_append, ih]
    rfl

theorem mem_updateArgs {x : ℚ} {l : List TickEffect} :
    x ∈ updateArgs l ↔ TickEffect.update x ∈ l := by
  simp only [updateArgs, List.mem_filterMap]
  constructor
  · rintro ⟨a, ha, hfa⟩
    cases a <;> simp_all
  · intro hm
    exact ⟨TickEffect.update x, hm, rfl⟩

/-- Every argument delivered to the update callback during a presentation
attempt is the current (speed-scaled) updateIntervalMs of the state. -/
theorem fire_update_arg (s : LoopState) (now : ℚ) :
    ∀ x ∈ updateArgs (fire s now).2, x = s.updateIntervalMs := by
  intro x hx
  rw [mem_updateArgs] at hx
  simp only [fire] at hx
  split_ifs at hx <;> simp at hx <;>
    (obtain ⟨l, hl, hm⟩ := hx; rw [hl.2] at hm; simpa using hm)

end InterpolatedTicker

open InterpolatedTicker in
/-- C2: with a fixed step of 10 ms, speed 1 and a zero accumulator, a single
presentation attempt with 25 ms of elapsed time runs the simulation (update)
callback exactly 2 times and then computes a blend factor of exactly 0.5:
the accumulated remainder 5 divided by the step size 10, clamped to
[0, 1]. -/
theorem C2_accumulator_25ms_two_steps_half_blend :
    (fire tickerState10 25).2 =
      [TickEffect.evalStart, TickEffect.capture, TickEffect.update 10,
       TickEffect.capture, TickEffect.update 10, TickEffect.beforeRender,
       TickEffect.blend (1/2), TickEffect.onRender, TickEffect.render,
       TickEffect.restore, TickEffect.afterRender, TickEffect.evalEnd]
    ∧ (fire tickerState10 25).1.accumulator = 5 := by
  have harg : (0:ℚ) + (25 - 0) = 25 := by norm_num
  have hmin : min ((25:ℚ)) ((10:ℚ) * 10) = 25 := by norm_num [min_def]
  constructor
  · simp only [fire, tickerState10]
    rw [if_neg (by norm_num)]
    rw [harg, hmin, whileSteps_10_25]
    norm_num [List.replicate]
  · simp only [fire, tickerState10]
    rw [if_neg (by norm_num)]
    rw [harg, hmin, whileSteps_10_25]

open InterpolatedTicker in
/-- A speed-1 presentation attempt with 15 ms elapsed: one update, delivered
with argument 10 (= targetUpdateIntervalMs / 1). -/
theorem c3_fire_speed1 :
    (fire (c3State 10 1 10) 15).2 =
      [TickEffect.evalStart, TickEffect.capture, TickEffect.update 10,
       TickEffect.beforeRender, TickEffect.blend (1/2), TickEffect.onRender,
       TickEffect.render, TickEffect.restore, TickEffect.afterRender,
       TickEffect.evalEnd] := by
  have hst : c3State 10 1 10 = tickerState10 := by
    simp only [c3State, setSpeed, tickerState10]
    norm_num
  rw [hst]
  have harg : (0:ℚ) + (15 - 0) = 15 := by norm_num
  have hmin : min ((15:ℚ)) ((10:ℚ) * 10) = 15 := by norm_num [min_def]
  simp only [fire, tickerState10]
  rw [if_neg (by norm_num)]
  rw [harg, hmin, whileSteps_10_15]
  norm_num [List.replicate]

open InterpolatedTicker in
/-- A speed-2 presentation attempt with 15 ms elapsed: three updates, each
delivered with argument 5 (= targetUpdateIntervalMs / 2). -/
theorem c3_fire_speed2 :
    (fire (c3State 10 2 10) 15).2 =
      [TickEffect.evalStart, TickEffect.capture, TickEffect.update 5,
       TickEffect.capture, TickEffect.update 5, TickEffect.capture,
       TickEffect.update 5, TickEffect.beforeRender, TickEffect.blend 0,
       TickEffect.onRender, TickEffect.render, TickEffect.restore,
       TickEffect.afterRender, TickEffect.evalEnd] := by
  have hst : c3State 10 2 10 =
      { targetUpdateIntervalMs := 10, updateIntervalMs := 5, previousTime := 0,
        accumulator := 0, speed := 2, maxRenderIntervalMs := -1,
        maxUpdatesPerRender := 10, started := true, scheduled := true,
        interpolation := true } := by
    simp only [c3State, setSpeed]
    norm_num
  rw [hst]
  have harg : (0:ℚ) + (15 - 0) = 15 := by norm_num
  have hmin : min ((15:ℚ)) ((5:ℚ) * 10) = 15 := by norm_num [min_def]
  simp only [fire]
  rw [if_neg (by norm_num)]
  rw [harg, hmin, whileSteps_5_15]
  norm_num [List.replicate]

open InterpolatedTicker in
/-- C3, counterexample: with targetUpdateIntervalMs = 10 and 15 ms elapsed,
doubling the speed from 1 to 2 changes the number of due steps from 1 to 3
(not 2), and the numeric argument passed to the update callback changes from
10 to 5: the delivered step size is target / speed, not the unchanged
nominal step. -/
theorem C3_counterexample_speed_rescales_delivered_step :
    countUpdates (fire (c3State 10 1 10) 15).2 = 1
    ∧ countUpdates (fire (c3State 10 2 10) 15).2 = 3
    ∧ (3 : ℕ) ≠ 2 * 1
    ∧ updateArgs (fire (c3State 10 1 10) 15).2 = [10]
    ∧ updateArgs (fire (c3State 10 2 10) 15).2 = [5, 5, 5]
    ∧ (5 : ℚ) ≠ 10 := by
  rw [c3_fire_speed1, c3_fire_speed2]
  refine ⟨rfl, rfl, by decide, rfl, rfl, by norm_num⟩

open InterpolatedTicker in
/-- C3, amended: for every positive speed, the speed setter makes the
effective step target / speed; every argument delivered to the update
callback equals that scaled interval (so it changes with speed); and from a
zero accumulator an elapsed time e within the frame-debt cap produces
exactly floor(e·speed/target) due steps — the step rate scales linearly
with speed while the delivered step size shrinks with it. -/
theorem C3_amended_speed_scales_rate_and_delivered_step
    (tgt spd maxU e : ℚ)
    (ht : 0 < tgt) (hs : 0 < spd) (he : 0 ≤ e)
    (hcap : e ≤ tgt / spd * maxU) :
    (c3State tgt spd maxU).updateIntervalMs = tgt / spd
    ∧ (∀ now x, x ∈ updateArgs (fire (c3State tgt spd maxU) now).2 →
        x = tgt / spd)
    ∧ countUpdates (fire (c3State tgt spd maxU) e).2 = (⌊e * spd / tgt⌋).toNat := by
  refine ⟨rfl, ?_, ?_⟩
  · intro now x hx
    exact fire_update_arg _ now x hx
  · have hiv : (0:ℚ) < tgt / spd := by positivity
    have harg : (0:ℚ) + (e - 0) = e := by ring
    have hmin : min e (tgt / spd * maxU) = e := min_eq_left hcap
    simp only [fire, c3State, setSpeed]
    rw [if_neg (by intro hcon; linarith)]
    rw [harg, hmin, whileSteps_eq_floor (tgt / spd) e hiv he]
    rw [div_div_eq_mul_div]
    have e1 : countUpdates [TickEffect.evalStart] = 0 := rfl
    have e2 : countUpdates [TickEffect.beforeRender] = 0 := rfl
    have e3 : ∀ f, countUpdates [TickEffect.blend f] = 0 := fun _ => rfl
    have e4 : countUpdates [TickEffect.onRender, TickEffect.render] = 0 := rfl
    have e5 : countUpdates [TickEffect.restore] = 0 := rfl
    have e6 : countUpdates [TickEffect.afterRender, TickEffect.evalEnd] = 0 := rfl
    simp only [if_true, countUpdates_append, countUpdates_updateLoop,
      e1, e2, e3, e4, e5, e6]
    omega

open InterpolatedTicker in
/-- Witness for the amended C3 at target 10, speed 2, 15 ms elapsed. -/
theorem C3_amended_witness :
    (c3State 10 2 10).updateIntervalMs = 10 / 2
    ∧ (∀ now x, x ∈ updateArgs (fire (c3State 10 2 10) now).2 →
        x = 10 / 2)
    ∧ countUpdates (fire (c3State 10 2 10) 15).2 = (⌊(15:ℚ) * 2 / 10⌋).toNat :=
  C3_amended_speed_scales_rate_and_delivered_step 10 2 10 15
    (by norm_num) (by norm_num) (by norm_num) (by norm_num)

open InterpolatedTicker in
/-- The presentation attempt still scheduled when stop() was called runs in
full: with a 10 ms step and only 5 ms elapsed it runs zero updates but still
blends (factor 1/2), renders and restores. -/
theorem c9_fire_after_stop :
    (fire (stop tickerState10) 5).2 =
      [TickEffect.evalStart, TickEffect.beforeRender, TickEffect.blend (1/2),
       TickEffect.onRender, TickEffect.render, TickEffect.restore,
       TickEffect.afterRender, TickEffect.evalEnd] := by
  have harg : (0:ℚ) + (5 - 0) = 5 := by norm_num
  have hmin : min ((5:ℚ)) ((10:ℚ) * 10) = 5 := by norm_num [min_def]
  simp only [fire, stop, tickerState10]
  rw [if_neg (by norm_num)]
  rw [harg, hmin, whileSteps_10_5]
  norm_num [List.replicate]

open InterpolatedTicker in
/-- C9, counterexample: from a running state with a frame pending, stop()
returns with the attempt still scheduled, and when that attempt fires it
still executes the blend and the presentation (render) call — stop() does
not cancel the scheduled presentation attempt. -/
theorem C9_counterexample_scheduled_attempt_runs_after_stop :
    (stop tickerState10).started = false
    ∧ (stop tickerState10).scheduled = true
    ∧ TickEffect.render ∈ (fire (stop tickerState10) 5).2
    ∧ TickEffect.blend (1/2) ∈ (fire (stop tickerState10) 5).2 := by
  refine ⟨rfl, rfl, ?_, ?_⟩ <;> rw [c9_fire_after_stop] <;> simp

open InterpolatedTicker in
/-- C9, amended: stop() is idempotent and takes effect only at the next
scheduling point: the attempt already scheduled when stop() returns still
executes exactly the effects it would have executed anyway (update / blend /
presentation included), and after it no further attempt is scheduled and the
ticker remains stopped — so at most one presentation attempt executes after
stop(). -/
theorem C9_amended_stop_idempotent_no_reschedule
    (s : LoopState) (now : ℚ) :
    stop (stop s) = stop s
    ∧ (fire (stop s) now).1.scheduled = false
    ∧ (fire (stop s) now).1.started = false
    ∧ (fire (stop s) now).2 = (fire s now).2 := by
  refine ⟨rfl, ?_, ?_, ?_⟩
  · simp only [fire, stop]
    split_ifs <;> rfl
  · simp only [fire, stop]
    split_ifs <;> rfl
  · simp only [fire, stop]
    split_ifs <;> rfl

namespace ContainerInterpolator

variable {α : Type} [LinearOrderedField α]

theorem rangeSplit (i n : ℕ) (h : i < n) :
    List.range n = List.range' 0 i ++ i :: List.range' (i + 1) (n - i - 1) := by
  rw [List.range_eq_range']
  have h1 : List.range' 0 i ++ List.range' (0 + i) (n - i) = List.range' 0 n := by
    rw [List.range'_append_1]
    congr 1
    omega
  rw [← h1]
  congr 1
  have h3 : n - i = (n - i - 1) + 1 := by omega
  rw [show (0:ℕ) + i = i from by omega, h3, List.range'_succ]
  norm_num

theorem blendStepAt_containers (cfg : CIConfig α) (t : α) (ws : WS α) (i : ℕ) :
    (blendStepAt cfg t ws i).2.containers = ws.2.containers := by
  unfold blendStepAt
  rcases h : ws.2.containers i with _ | id
  · rfl
  · by_cases hd : (ws.1 id).destroyed <;> simp [hd]

theorem blendStepAt_count (cfg : CIConfig α) (t : α) (ws : WS α) (i : ℕ) :
    (blendStepAt cfg t ws i).2.count = ws.2.count := by
  unfold blendStepAt
  rcases h : ws.2.containers i with _ | id
  · rfl
  · by_cases hd : (ws.1 id).destroyed <;> simp [hd]

theorem blendStepAt_world_other (cfg : CIConfig α) (t : α) (ws : WS α) (i id : ℕ)
    (h : ws.2.containers i ≠ some id) :
    (blendStepAt cfg t ws i).1 id = ws.1 id := by
  unfold blendStepAt
  rcases hc : ws.2.containers i with _ | id'
  · rfl
  · have hne : id ≠ id' := by
      intro he
      exact h (by rw [hc, he])
    by_cases hd : (ws.1 id').destroyed <;> simp [hd, updFun, hne]

theorem blendStepAt_destroyed (cfg : CIConfig α) (t : α) (ws : WS α) (i id' : ℕ) :
    ((blendStepAt cfg t ws i).1 id').destroyed = (ws.1 id').destroyed := by
  unfold blendStepAt
  rcases hc : ws.2.containers i with _ | id
  · rfl
  · by_cases hd : (ws.1 id).destroyed <;> simp [hd, updFun]
    by_cases he : id' = id <;> simp [he]
    simpa using hd

theorem blendStepAt_endArr_other (cfg : CIConfig α) (t : α) (ws : WS α) (i j : ℕ)
    (h : j ≠ i) :
    (blendStepAt cfg t ws i).2.endArr j = ws.2.endArr j := by
  unfold blendStepAt
  rcases hc : ws.2.containers i with _ | id
  · rfl
  · by_cases hd : (ws.1 id).destroyed <;> simp [hd, updFun, h]

theorem blendAux_containers (cfg : CIConfig α) (t : α) (idxs : List ℕ) (ws : WS α) :
    (blendAux cfg t idxs ws).2.containers = ws.2.containers := by
  induction idxs generalizing ws with
  | nil => rfl
  | cons a l ih =>
    rw [blendAux, List.foldl_cons, ← blendAux, ih, blendStepAt_containers]

theorem blendAux_count (cfg : CIConfig α) (t : α) (idxs : List ℕ) (ws : WS α) :
    (blendAux cfg t idxs ws).2.count = ws.2.count := by
  induction idxs generalizing ws with
  | nil => rfl
  | cons a l ih =>
    rw [blendAux, List.foldl_cons, ← blendAux, ih, blendStepAt_count]

theorem blendAux_world_notref (cfg : CIConfig α) (t : α) (idxs : List ℕ)
    (ws : WS α) (id : ℕ)
    (h : ∀ j ∈ idxs, ws.2.containers j ≠ some id) :
    (blendAux cfg t idxs ws).1 id = ws.1 id := by
  induction idxs generalizing ws with
  | nil => rfl
  | cons a l ih =>
    rw [blendAux, List.foldl_cons, ← blendAux]
    rw [ih _ ?_, blendStepAt_world_other]
    · exact h a (List.mem_cons_self a l)
    · intro j hj
      rw [blendStepAt_containers]
      exact h j (List.mem_cons_of_mem a hj)

theorem blendAux_destroyed (cfg : CIConfig α) (t : α) (idxs : List ℕ)
    (ws : WS α) (id' : ℕ) :
    ((blendAux cfg t idxs ws).1 id').destroyed = (ws.1 id').destroyed := by
  induction idxs generalizing ws with
  | nil => rfl
  | cons a l ih =>
    rw [blendAux, List.foldl_cons, ← blendAux, ih, blendStepAt_destroyed]

theorem blendAux_endArr_notmem (cfg : CIConfig α) (t : α) (idxs : List ℕ)
    (ws : WS α) (i : ℕ) (h : i ∉ idxs) :
    (blendAux cfg t idxs ws).2.endArr i = ws.2.endArr i := by
  induction idxs generalizing ws with
  | nil => rfl
  | cons a l ih =>
    rw [blendAux, List.foldl_cons, ← blendAux]
    rw [ih _ (fun hm => h (List.mem_cons_of_mem a hm))]
    exact blendStepAt_endArr_other cfg t ws a i
      (fun he => h (he ▸ List.mem_cons_self a l))

theorem unblendStepAt_state (ws : WS α) (i : ℕ) :
    (unblendStepAt ws i).2 = ws.2 := by
  unfold unblendStepAt
  rcases hc : ws.2.containers i with _ | id
  · rfl
  · by_cases hd : (ws.1 id).destroyed <;> simp [hd]

theorem unblendStepAt_world_other (ws : WS α) (i id : ℕ)
    (h : ws.2.containers i ≠ some id) :
    (unblendStepAt ws i).1 id = ws.1 id := by
  unfold unblendStepAt
  rcases hc : ws.2.containers i with _ | id'
  · rfl
  · have hne : id ≠ id' := by
      intro he
      exact h (by rw [hc, he])
    by_cases hd : (ws.1 id').destroyed <;> simp [hd, updFun, hne]

theorem unblendAux_state (idxs : List ℕ) (ws : WS α) :
    (unblendAux idxs ws).2 = ws.2 := by
  induction idxs generalizing ws with
  | nil => rfl
  | cons a l ih =>
    rw [unblendAux, List.foldl_cons, ← unblendAux, ih, unblendStepAt_state]

theorem unblendAux_world_notref (idxs : List ℕ) (ws : WS α) (id : ℕ)
    (h : ∀ j ∈ idxs, ws.2.containers j ≠ some id) :
    (unblendAux idxs ws).1 id = ws.1 id := by
  induction idxs generalizing ws with
  | nil => rfl
  | cons a l ih =>
    rw [unblendAux, List.foldl_cons, ← unblendAux]
    rw [ih _ ?_, unblendStepAt_world_other]
    · exact h a (List.mem_cons_self a l)
    · intro j hj
      rw [unblendStepAt_state]
      exact h j (List.mem_cons_of_mem a hj)

theorem blendStepAt_hit (cfg : CIConfig α) (t : α) (ws : WS α) (i id : ℕ)
    (hc : ws.2.containers i = some id) (hd : (ws.1 id).destroyed = false) :
    blendStepAt cfg t ws i =
      (updFun ws.1 id
         { ws.1 id with props := blendProps cfg t (ws.2.startArr i) (ws.1 id).props },
       { ws.2 with endArr := updFun ws.2.endArr i (ws.1 id).props }) := by
  unfold blendStepAt
  rw [hc]
  simp [hd]

theorem unblendStepAt_hit (ws : WS α) (i id : ℕ)
    (hc : ws.2.containers i = some id) (hd : (ws.1 id).destroyed = false) :
    unblendStepAt ws i =
      (updFun ws.1 id { ws.1 id with props := ws.2.endArr i }, ws.2) := by
  unfold unblendStepAt
  rw [hc]
  simp [hd]

end ContainerInterpolator

open ContainerInterpolator in
/-- C1: for a tracked slot i holding a never-destroyed container (and no
other tracked slot aliasing the same container, as guaranteed for a tree
walk), unblend() after blend(t), for any t, leaves all six properties
exactly equal to the value captured into the end (shadow) snapshot arrays
during that blend call — which is the container's true value at blend
time. -/
theorem C1_blend_unblend_roundtrip {α : Type} [LinearOrderedField α]
    (cfg : CIConfig α) (t : α) (ws : ContainerInterpolator.WS α) (i id : ℕ)
    (hi : i < ws.2.count)
    (hid : ws.2.containers i = some id)
    (huniq : ∀ j, j < ws.2.count → j ≠ i → ws.2.containers j ≠ some id)
    (halive : (ws.1 id).destroyed = false) :
    ((unblend (blend cfg t ws)).1 id).props = (blend cfg t ws).2.endArr i
    ∧ (blend cfg t ws).2.endArr i = (ws.1 id).props := by
  set t2 := clampUnit t with ht2
  set A := List.range' 0 i with hA
  set B := List.range' (i + 1) (ws.2.count - i - 1) with hB
  have hmemA : ∀ j ∈ A, j < i := by
    intro j hj
    rw [hA, List.mem_range'_1] at hj
    omega
  have hmemB : ∀ j ∈ B, i + 1 ≤ j ∧ j < ws.2.count := by
    intro j hj
    rw [hB, List.mem_range'_1] at hj
    omega
  have hArefs : ∀ j ∈ A, ws.2.containers j ≠ some id := by
    intro j hj
    have h1 := hmemA j hj
    exact huniq j (by omega) (by omega)
  have hBrefs : ∀ j ∈ B, ws.2.containers j ≠ some id := by
    intro j hj
    have h1 := hmemB j hj
    exact huniq j (by omega) (by omega)
  have hsplit := rangeSplit i ws.2.count hi
  have hblend : blend cfg t ws = blendAux cfg t2 B (blendStepAt cfg t2 (blendAux cfg t2 A ws) i) := by
    rw [blend, hsplit, ← ht2]
    simp only [blendAux, List.foldl_append, List.foldl_cons]
  have hwsAw : (blendAux cfg t2 A ws).1 id = ws.1 id :=
    blendAux_world_notref cfg t2 A ws id hArefs
  have hwsAc : (blendAux cfg t2 A ws).2.containers = ws.2.containers :=
    blendAux_containers cfg t2 A ws
  have hstep : blendStepAt cfg t2 (blendAux cfg t2 A ws) i =
      (updFun (blendAux cfg t2 A ws).1 id
         { (blendAux cfg t2 A ws).1 id with
             props := blendProps cfg t2 ((blendAux cfg t2 A ws).2.startArr i)
               ((blendAux cfg t2 A ws).1 id).props },
       { (blendAux cfg t2 A ws).2 with
           endArr := updFun (blendAux cfg t2 A ws).2.endArr i
             ((blendAux cfg t2 A ws).1 id).props }) := by
    refine blendStepAt_hit cfg t2 _ i id ?_ ?_
    · rw [hwsAc]; exact hid
    · rw [hwsAw]; exact halive
  have hiB : i ∉ B := by
    intro hm
    have := hmemB i hm
    omega
  have hend : (blend cfg t ws).2.endArr i = (ws.1 id).props := by
    rw [hblend]
    rw [blendAux_endArr_notmem cfg t2 B _ i hiB]
    rw [hstep]
    simp [updFun, hwsAw]
  refine ⟨?_, hend⟩
  have hoc : (blend cfg t ws).2.containers = ws.2.containers := by
    rw [hblend, blendAux_containers, hstep]
    simp only []
    rw [blendAux_containers]
  have hocount : (blend cfg t ws).2.count = ws.2.count := by
    rw [hblend, blendAux_count, hstep]
    simp only []
    rw [blendAux_count]
  have hodes : ((blend cfg t ws).1 id).destroyed = false := by
    rw [hblend, blendAux_destroyed, hstep]
    simp [updFun, hwsAw, halive]
  have hunb : unblend (blend cfg t ws) =
      unblendAux B (unblendStepAt (unblendAux A (blend cfg t ws)) i) := by
    rw [unblend, hocount, hsplit]
    simp only [unblendAux, List.foldl_append, List.foldl_cons]
  have huAs : (unblendAux A (blend cfg t ws)).2 = (blend cfg t ws).2 :=
    unblendAux_state A _
  have huAw : (unblendAux A (blend cfg t ws)).1 id = (blend cfg t ws).1 id := by
    refine unblendAux_world_notref A _ id ?_
    intro j hj
    rw [hoc]
    exact hArefs j hj
  have hustep : unblendStepAt (unblendAux A (blend cfg t ws)) i =
      (updFun (unblendAux A (blend cfg t ws)).1 id
         { (unblendAux A (blend cfg t ws)).1 id with
             props := (unblendAux A (blend cfg t ws)).2.endArr i },
       (unblendAux A (blend cfg t ws)).2) := by
    refine unblendStepAt_hit _ i id ?_ ?_
    · rw [huAs, hoc]; exact hid
    · rw [huAw]; exact hodes
  have hBrefs2 : ∀ j ∈ B,
      (unblendStepAt (unblendAux A (blend cfg t ws)) i).2.containers j ≠ some id := by
    intro j hj
    rw [unblendStepAt_state, huAs, hoc]
    exact hBrefs j hj
  rw [hunb, unblendAux_world_notref B _ id hBrefs2, hustep]
  simp only [updFun, if_pos rfl]
  rw [huAs]
  simp

open ContainerInterpolator in
/-- Witness for C1: one tracked slot, container 5 alive, t = 3/4. -/
theorem C1_blend_unblend_roundtrip_witness :
    ((unblend (blend c7Cfg (3/4) (c1World, c1State))).1 5).props
        = (blend c7Cfg (3/4) (c1World, c1State)).2.endArr 0
    ∧ (blend c7Cfg (3/4) (c1World, c1State)).2.endArr 0
        = ((c1World, c1State).1 5).props :=
  C1_blend_unblend_roundtrip c7Cfg (3/4) (c1World, c1State) 0 5
    (by decide) (by decide)
    (fun j hj hne => by
      have h1 : j < 1 := hj
      omega)
    (by decide)

open ContainerInterpolator InterpolatedTicker in
/-- C6: in ContainerInterpolator.blend and in the final
InterpolatedTicker._interpolateContainers body, if the (post-wraparound-
fold) position delta magnitude exceeds the configured position limit on
either axis, the position is left at its true (unblended) current value;
when both axis deltas are within the limit the position becomes
previous + delta * t with t clamped to [0, 1]. -/
theorem C6_position_max_delta_clamp {α : Type} [LinearOrderedField α] [FloorRing α]
    (cfg : CIConfig α) (lims : TickerLimits α) (piVal t raw : α)
    (start cur prev cur2 : Props α) (wrap : Option (α × α)) :
    ((|cur.x - start.x| > cfg.maxDeltaPosition ∨ |cur.y - start.y| > cfg.maxDeltaPosition) →
        (ContainerInterpolator.blendProps cfg (clampUnit t) start cur).x = cur.x
        ∧ (ContainerInterpolator.blendProps cfg (clampUnit t) start cur).y = cur.y)
    ∧ ((|cur.x - start.x| ≤ cfg.maxDeltaPosition ∧ |cur.y - start.y| ≤ cfg.maxDeltaPosition) →
        (ContainerInterpolator.blendProps cfg (clampUnit t) start cur).x
            = start.x + (cur.x - start.x) * clampUnit t
        ∧ (ContainerInterpolator.blendProps cfg (clampUnit t) start cur).y
            = start.y + (cur.y - start.y) * clampUnit t)
    ∧ ((|foldWrap (wrap.map Prod.fst) (cur2.x - prev.x)| > lims.autoLimitPosition
        ∨ |foldWrap (wrap.map Prod.snd) (cur2.y - prev.y)| > lims.autoLimitPosition) →
        (InterpolatedTicker.blendStep lims piVal (clampFactor raw) wrap prev cur2).x = cur2.x
        ∧ (InterpolatedTicker.blendStep lims piVal (clampFactor raw) wrap prev cur2).y = cur2.y)
    ∧ ((|foldWrap (wrap.map Prod.fst) (cur2.x - prev.x)| ≤ lims.autoLimitPosition
        ∧ |foldWrap (wrap.map Prod.snd) (cur2.y - prev.y)| ≤ lims.autoLimitPosition) →
        (InterpolatedTicker.blendStep lims piVal (clampFactor raw) wrap prev cur2).x
            = prev.x + clampFactor raw * foldWrap (wrap.map Prod.fst) (cur2.x - prev.x)
        ∧ (InterpolatedTicker.blendStep lims piVal (clampFactor raw) wrap prev cur2).y
            = prev.y + clampFactor raw * foldWrap (wrap.map Prod.snd) (cur2.y - prev.y)) := by
  refine ⟨?_, ?_, ?_, ?_⟩
  · intro h
    have hcond : ¬(|cur.x - start.x| ≤ cfg.maxDeltaPosition
        ∧ |cur.y - start.y| ≤ cfg.maxDeltaPosition) := by
      rcases h with h | h
      · intro hc; linarith [hc.1]
      · intro hc; linarith [hc.2]
    constructor <;> simp [ContainerInterpolator.blendProps, hcond]
  · intro h
    constructor <;> simp [ContainerInterpolator.blendProps, h.1, h.2]
  · intro h
    have hcond : ¬(|foldWrap (wrap.map Prod.fst) (cur2.x - prev.x)| ≤ lims.autoLimitPosition
        ∧ |foldWrap (wrap.map Prod.snd) (cur2.y - prev.y)| ≤ lims.autoLimitPosition) := by
      rcases h with h | h
      · intro hc; linarith [hc.1]
      · intro hc; linarith [hc.2]
    constructor <;> simp [InterpolatedTicker.blendStep, hcond]
  · intro h
    constructor <;> simp [InterpolatedTicker.blendStep, h.1, h.2]

open ContainerInterpolator InterpolatedTicker in
/-- Witness for C6 at the default position limit 100: a delta of 101 is
left unblended on both embeddings; deltas of 99/40 blend to
start + delta/2. -/
theorem C6_position_max_delta_clamp_witness :
    ((ContainerInterpolator.blendProps c7Cfg (clampUnit (1/2)) defaultProps ⟨101, 0, 1, 1, 0, 1⟩).x
        = (101 : ℚ)
      ∧ (ContainerInterpolator.blendProps c7Cfg (clampUnit (1/2)) defaultProps ⟨101, 0, 1, 1, 0, 1⟩).y
        = (0 : ℚ))
    ∧ ((ContainerInterpolator.blendProps c7Cfg (clampUnit (1/2)) defaultProps ⟨99, 40, 1, 1, 0, 1⟩).x
        = 0 + (99 - 0) * clampUnit (1/2)
      ∧ (ContainerInterpolator.blendProps c7Cfg (clampUnit (1/2)) defaultProps ⟨99, 40, 1, 1, 0, 1⟩).y
        = 0 + (40 - 0) * clampUnit (1/2))
    ∧ ((InterpolatedTicker.blendStep (⟨100, 1, 2, 1/2⟩ : TickerLimits ℚ) 3 (clampFactor (1/2)) none
          defaultProps ⟨101, 0, 1, 1, 0, 1⟩).x = (101 : ℚ)
      ∧ (InterpolatedTicker.blendStep (⟨100, 1, 2, 1/2⟩ : TickerLimits ℚ) 3 (clampFactor (1/2)) none
          defaultProps ⟨101, 0, 1, 1, 0, 1⟩).y = (0 : ℚ))
    ∧ ((InterpolatedTicker.blendStep (⟨100, 1, 2, 1/2⟩ : TickerLimits ℚ) 3 (clampFactor (1/2)) none
          defaultProps ⟨99, 40, 1, 1, 0, 1⟩).x
        = 0 + clampFactor (1/2) * foldWrap ((none : Option (ℚ × ℚ)).map Prod.fst) (99 - 0)
      ∧ (InterpolatedTicker.blendStep (⟨100, 1, 2, 1/2⟩ : TickerLimits ℚ) 3 (clampFactor (1/2)) none
          defaultProps ⟨99, 40, 1, 1, 0, 1⟩).y
        = 0 + clampFactor (1/2) * foldWrap ((none : Option (ℚ × ℚ)).map Prod.snd) (40 - 0)) := by
  refine ⟨?_, ?_, ?_, ?_⟩
  · exact (C6_position_max_delta_clamp c7Cfg ⟨100, 1, 2, 1/2⟩ 3 (1/2) (1/2) defaultProps ⟨101, 0, 1, 1, 0, 1⟩
      defaultProps ⟨101, 0, 1, 1, 0, 1⟩ none).1 (by left; simp only [c7Cfg, defaultProps, foldWrap, lt_abs]; norm_num)
  · exact (C6_position_max_delta_clamp c7Cfg ⟨100, 1, 2, 1/2⟩ 3 (1/2) (1/2) defaultProps ⟨99, 40, 1, 1, 0, 1⟩
      defaultProps ⟨99, 40, 1, 1, 0, 1⟩ none).2.1 (by constructor <;> (simp only [c7Cfg, defaultProps, foldWrap, abs_le]; constructor <;> norm_num))
  · exact (C6_position_max_delta_clamp c7Cfg ⟨100, 1, 2, 1/2⟩ 3 (1/2) (1/2) defaultProps ⟨101, 0, 1, 1, 0, 1⟩
      defaultProps ⟨101, 0, 1, 1, 0, 1⟩ none).2.2.1 (by left; simp only [c7Cfg, defaultProps, foldWrap, lt_abs]; norm_num)
  · exact (C6_position_max_delta_clamp c7Cfg ⟨100, 1, 2, 1/2⟩ 3 (1/2) (1/2) defaultProps ⟨99, 40, 1, 1, 0, 1⟩
      defaultProps ⟨99, 40, 1, 1, 0, 1⟩ none).2.2.2 (by constructor <;> (simp only [c7Cfg, defaultProps, foldWrap, abs_le]; constructor <;> norm_num))

open ContainerInterpolator in
/-- C5, counterexample: ContainerInterpolator.blend does not fold the
rotation delta at all.  With maxDeltaRotation = 10, a rotation change from
0 to 4 rad (which crosses pi) blends at t = 1/2 to rotation 2, whereas
folding the delta to its shortest signed path 4 - 2*pi (which is what the
claim asserts always happens) would give 0 + (4 - 2*pi) * (1/2), a
different value since pi is not 0. -/
theorem C5_counterexample_blend_rotation_unfolded :
    (ContainerInterpolator.blendProps (⟨100, 1, 10, 1/2⟩ : CIConfig ℝ) (clampUnit (1/2))
        ⟨0, 0, 1, 1, 0, 1⟩ ⟨0, 0, 1, 1, 4, 1⟩).rotation = 2
    ∧ foldRotation Real.pi ((4 : ℝ) - 0) = 4 - 2 * Real.pi
    ∧ (2 : ℝ) ≠ 0 + foldRotation Real.pi ((4 : ℝ) - 0) * clampUnit (1/2) := by
  have hpi4 : Real.pi < 4 := by
    have h := Real.pi_lt_d2
    linarith
  have hclamp : clampUnit ((1:ℝ)/2) = 1/2 := by
    rw [clampUnit]
    rw [max_eq_right (by norm_num : (0:ℝ) ≤ 1/2)]
    rw [min_eq_right (by norm_num : (1:ℝ)/2 ≤ 1)]
  have hfold : foldRotation Real.pi ((4 : ℝ) - 0) = 4 - 2 * Real.pi := by
    rw [foldRotation]
    rw [if_pos (by linarith : (4:ℝ) - 0 > Real.pi)]
    norm_num
  refine ⟨?_, hfold, ?_⟩
  · simp only [ContainerInterpolator.blendProps]
    rw [hclamp]
    rw [if_pos ?_]
    · norm_num
    · rw [abs_of_nonneg (by norm_num : (0:ℝ) ≤ 4 - 0)]
      norm_num
  · rw [hfold, hclamp]
    intro heq
    have hpi : 0 < Real.pi := Real.pi_pos
    nlinarith

open InterpolatedTicker in
/-- C5, amended: only InterpolatedTicker._interpolateContainers folds the
rotation delta, and for previous/current rotations inside (-pi, pi] the
single fold lands on the representative of the delta modulo 2*pi inside
[-pi, pi] (the shortest signed path); in particular a rotation change from
170 deg (17*pi/18) to -170 deg crosses the boundary and is interpolated
through the short 20 deg arc: prev + t * (pi/9).
ContainerInterpolator.blend applies no rotation folding (see the
counterexample). -/
theorem C5_amended_rotation_folding :
    (∀ prev cur : ℝ, -Real.pi < prev → prev ≤ Real.pi → -Real.pi < cur → cur ≤ Real.pi →
        |foldRotation Real.pi (cur - prev)| ≤ Real.pi
        ∧ (foldRotation Real.pi (cur - prev) = cur - prev
           ∨ foldRotation Real.pi (cur - prev) = cur - prev - 2 * Real.pi
           ∨ foldRotation Real.pi (cur - prev) = cur - prev + 2 * Real.pi))
    ∧ (∀ t : ℝ,
        (InterpolatedTicker.blendStep (⟨100, 1, Real.pi / 4, 1/2⟩ : TickerLimits ℝ)
            Real.pi t none
            ⟨0, 0, 1, 1, 17 * Real.pi / 18, 1⟩ ⟨0, 0, 1, 1, -(17 * Real.pi) / 18, 1⟩).rotation
          = 17 * Real.pi / 18 + t * (Real.pi / 9)) := by
  have hpi : (0:ℝ) < Real.pi := Real.pi_pos
  constructor
  · intro prev cur h1 h2 h3 h4
    rw [foldRotation]
    split_ifs with ha hb
    · constructor
      · rw [abs_le]
        constructor <;> linarith
      · right; left; ring
    · constructor
      · rw [abs_le]
        constructor <;> linarith
      · right; right; ring
    · constructor
      · rw [abs_le]
        push_neg at ha hb
        constructor <;> linarith
      · left; rfl
  · intro t
    have hd : (-(17 * Real.pi) / 18 : ℝ) - 17 * Real.pi / 18 = -(17 * Real.pi / 9) := by
      ring
    have hfold : foldRotation Real.pi ((-(17 * Real.pi) / 18 : ℝ) - 17 * Real.pi / 18)
        = Real.pi / 9 := by
      rw [hd, foldRotation]
      rw [if_neg (by intro hc; nlinarith)]
      rw [if_pos (by nlinarith)]
      ring
    simp only [InterpolatedTicker.blendStep]
    rw [hfold]
    rw [if_pos ?_]
    · rw [abs_of_nonneg (by positivity)]
      linarith

open InterpolatedTicker in
/-- Witness for the amended C5 at prev = 0, cur = pi, and t = 1/2. -/
theorem C5_amended_rotation_folding_witness :
    (|foldRotation Real.pi (Real.pi - 0)| ≤ Real.pi
     ∧ (foldRotation Real.pi (Real.pi - 0) = Real.pi - 0
        ∨ foldRotation Real.pi (Real.pi - 0) = Real.pi - 0 - 2 * Real.pi
        ∨ foldRotation Real.pi (Real.pi - 0) = Real.pi - 0 + 2 * Real.pi))
    ∧ (InterpolatedTicker.blendStep (⟨100, 1, Real.pi / 4, 1/2⟩ : TickerLimits ℝ)
          Real.pi (1/2) none
          ⟨0, 0, 1, 1, 17 * Real.pi / 18, 1⟩ ⟨0, 0, 1, 1, -(17 * Real.pi) / 18, 1⟩).rotation
        = 17 * Real.pi / 18 + (1/2) * (Real.pi / 9) :=
  ⟨C5_amended_rotation_folding.1 0 Real.pi
      (by linarith [Real.pi_pos]) (by linarith [Real.pi_pos])
      (by linarith [Real.pi_pos]) le_rfl,
   C5_amended_rotation_folding.2 (1/2)⟩

namespace InterpolatedTicker

theorem resizeOnDemand_facts (s : CaptureState) :
    (resizeOnDemand s).prevIdxCount = s.prevIdxCount
    ∧ (resizeOnDemand s).maxIdx = s.maxIdx
    ∧ (resizeOnDemand s).releasedIdx = s.releasedIdx
    ∧ (resizeOnDemand s).defaultEvals = s.defaultEvals
    ∧ (resizeOnDemand s).idxCount = s.idxCount
    ∧ (resizeOnDemand s).idxContainers = s.idxContainers := by
  unfold resizeOnDemand
  split_ifs <;> simp

theorem allocStore_facts (id : ℕ) (ws : WS) :
    (allocStore id ws).2.prevIdxCount = ws.2.prevIdxCount
    ∧ ws.2.maxIdx ≤ (allocStore id ws).2.maxIdx
    ∧ (allocStore id ws).2.defaultEvals = ws.2.defaultEvals
    ∧ (∀ id', ((allocStore id ws).1 id').interpolation = (ws.1 id').interpolation) := by
  obtain ⟨r1, r2, r3, r4, r5, r6⟩ := resizeOnDemand_facts ws.2
  unfold allocStore
  rcases h1 : (ws.1 id).interpIdx with _ | j
  · rcases h2 : (resizeOnDemand ws.2).releasedIdx with _ | ⟨j, rest⟩
    · simp only [h1, h2, r1, r2, r3, r4]
      refine ⟨by trivial, by omega, by trivial, ?_⟩
      intro id'
      simp only [updFun]
      by_cases he : id' = id <;> simp [he]
    · simp only [h1, h2, r1, r2, r3, r4]
      refine ⟨by trivial, by omega, by trivial, ?_⟩
      intro id'
      simp only [updFun]
      by_cases he : id' = id <;> simp [he]
  · simp only [h1, r1, r2, r3, r4]
    exact ⟨by trivial, by omega, by trivial, fun id' => by trivial⟩

theorem captureList_preserve (pred : ℕ → Bool) (P : WS → Prop)
    (hstep : ∀ id recurse ws, (∀ x, P x → P (recurse x)) → P ws →
      P (captureStep pred id recurse ws)) :
    ∀ (f : SceneForest) (ws : WS), P ws → P (captureList pred f ws) := by
  intro f
  induction f with
  | nil =>
    intro ws h
    simpa [captureList] using h
  | cons id cs rest ihcs ihrest =>
    intro ws h
    rw [captureList]
    exact ihrest _ (hstep id _ ws (fun x hx => ihcs x hx) h)

theorem captureList_prevIdxCount (pred : ℕ → Bool) (f : SceneForest) (ws : WS) :
    (captureList pred f ws).2.prevIdxCount = ws.2.prevIdxCount := by
  refine captureList_preserve pred (fun x => x.2.prevIdxCount = ws.2.prevIdxCount)
    ?_ f ws rfl
  intro id recurse ws2 hrec hP
  simp only [captureStep]
  rcases h3 : (ws2.1 id).interpolation with _ | b <;>
    simp only [h3] <;>
    split_ifs <;>
    first
      | exact hP
      | (refine hrec _ ?_
         exact ((allocStore_facts id _).1).trans hP)

theorem captureList_maxIdx_mono (pred : ℕ → Bool) (f : SceneForest) (ws : WS) :
    ws.2.maxIdx ≤ (captureList pred f ws).2.maxIdx := by
  refine captureList_preserve pred (fun x => ws.2.maxIdx ≤ x.2.maxIdx)
    ?_ f ws le_rfl
  intro id recurse ws2 hrec hP
  simp only [captureStep]
  rcases h3 : (ws2.1 id).interpolation with _ | b <;>
    simp only [h3] <;>
    split_ifs <;>
    first
      | exact hP
      | (refine hrec _ ?_
         refine le_trans hP ?_
         exact (allocStore_facts id ws2).2.1)
      | (refine hrec _ ?_
         refine le_trans hP ?_
         exact (allocStore_facts id (updFun ws2.1 id { ws2.1 id with interpolation := some true }, { ws2.2 with defaultEvals := updFun ws2.2.defaultEvals id (ws2.2.defaultEvals id + 1) })).2.1)

theorem memoInv_congr (pred : ℕ → Bool) (x y : WS)
    (he : ∀ id, x.2.defaultEvals id = y.2.defaultEvals id)
    (hf : ∀ id, (x.1 id).interpolation = (y.1 id).interpolation)
    (h : memoInv pred y) : memoInv pred x := by
  intro id
  obtain ⟨k1, k2, k3⟩ := h id
  refine ⟨?_, ?_, ?_⟩
  · rw [he id]; exact k1
  · intro hn
    rw [he id]
    exact k2 (by rw [← hf id]; exact hn)
  · intro h1
    rw [hf id]
    exact k3 (by rw [← he id]; exact h1)

theorem captureStep_memoInv (pred : ℕ → Bool) (id : ℕ) (recurse : WS → WS)
    (ws : WS)
    (hrec : ∀ x, memoInv pred x → memoInv pred (recurse x))
    (h : memoInv pred ws) :
    memoInv pred (captureStep pred id recurse ws) := by
  simp only [captureStep]
  rcases h3 : (ws.1 id).interpolation with _ | b
  · simp only [h3]
    split_ifs with h1 h2 h4
    · exact h
    · exact h
    · -- flag unset, predicate true: evaluate, cache true, store, recurse
      refine hrec _ ?_
      have hX := allocStore_facts id (updFun ws.1 id { ws.1 id with interpolation := some true }, { ws.2 with defaultEvals := updFun ws.2.defaultEvals id (ws.2.defaultEvals id + 1) })
      refine memoInv_congr pred _ (updFun ws.1 id { ws.1 id with interpolation := some true },
        { ws.2 with defaultEvals := updFun ws.2.defaultEvals id (ws.2.defaultEvals id + 1) })
        (fun id' => congrFun hX.2.2.1 id')
        (fun id' => hX.2.2.2 id') ?_
      intro id'
      obtain ⟨k1, k2, k3⟩ := h id'
      by_cases he : id' = id
      · subst he
        have h0 : ws.2.defaultEvals id' = 0 := k2 h3
        refine ⟨?_, ?_, ?_⟩
        · simp [updFun, h0]
        · intro hn
          simp [updFun] at hn
        · intro h1
          simp [updFun, h4]
      · refine ⟨?_, ?_, ?_⟩
        · simp [updFun, he]
          exact k1
        · intro hn
          simp [updFun, he] at hn ⊢
          exact k2 hn
        · intro h1
          simp [updFun, he] at h1 ⊢
          exact k3 h1
    · -- flag unset, predicate false: evaluate, cache false, skip subtree
      intro id'
      obtain ⟨k1, k2, k3⟩ := h id'
      by_cases he : id' = id
      · subst he
        have h0 : ws.2.defaultEvals id' = 0 := k2 h3
        have hpf : pred id' = false := by
          revert h4
          cases pred id' <;> simp
        refine ⟨?_, ?_, ?_⟩
        · simp [updFun, h0]
        · intro hn
          simp [updFun] at hn
        · intro h1
          simp [updFun, hpf]
      · refine ⟨?_, ?_, ?_⟩
        · simp [updFun, he]
          exact k1
        · intro hn
          simp [updFun, he] at hn ⊢
          exact k2 hn
        · intro h1
          simp [updFun, he] at h1 ⊢
          exact k3 h1
  · simp only [h3]
    split_ifs with h1 h2
    · exact h
    · exact h
    · refine hrec _ ?_
      have hY := allocStore_facts id ws
      refine memoInv_congr pred _ ws
        (fun id' => congrFun hY.2.2.1 id')
        (fun id' => hY.2.2.2 id') h

theorem markReleased_facts (oid : Option ℕ) (ws : WS) :
    (markReleased oid ws).2.defaultEvals = ws.2.defaultEvals
    ∧ (∀ id', ((markReleased oid ws).1 id').interpolation = (ws.1 id').interpolation)
    ∧ (markReleased oid ws).2.prevIdxCount = ws.2.prevIdxCount
    ∧ (markReleased oid ws).2.maxIdx = ws.2.maxIdx := by
  unfold markReleased
  rcases oid with _ | id
  · exact ⟨rfl, fun _ => rfl, rfl, rfl⟩
  · rcases h1 : (ws.1 id).interpIdx with _ | j
    · simp only [h1]
      exact ⟨by trivial, fun _ => by trivial, by trivial, by trivial⟩
    · simp only [h1]
      refine ⟨by trivial, ?_, by trivial, by trivial⟩
      intro id'
      simp only [updFun]
      by_cases he : id' = id <;> simp [he]

theorem tailStep_facts (ws : WS) (i : ℕ) :
    ((fun ws i =>
        let ws2 := markReleased (ws.2.idxContainers i) ws
        ((ws2.1, { ws2.2 with idxContainers := updFun ws2.2.idxContainers i none }) : WS))
      ws i).2.defaultEvals = ws.2.defaultEvals
    ∧ (∀ id', (((fun ws i =>
        let ws2 := markReleased (ws.2.idxContainers i) ws
        ((ws2.1, { ws2.2 with idxContainers := updFun ws2.2.idxContainers i none }) : WS))
      ws i).1 id').interpolation = (ws.1 id').interpolation) := by
  obtain ⟨m1, m2, m3, m4⟩ := markReleased_facts (ws.2.idxContainers i) ws
  exact ⟨m1, m2⟩

theorem tailFold_facts (l : List ℕ) (ws : WS) :
    (l.foldl (fun ws i =>
        let ws2 := markReleased (ws.2.idxContainers i) ws
        ((ws2.1, { ws2.2 with idxContainers := updFun ws2.2.idxContainers i none }) : WS)) ws).2.defaultEvals
      = ws.2.defaultEvals
    ∧ (∀ id', ((l.foldl (fun ws i =>
        let ws2 := markReleased (ws.2.idxContainers i) ws
        ((ws2.1, { ws2.2 with idxContainers := updFun ws2.2.idxContainers i none }) : WS)) ws).1 id').interpolation
      = (ws.1 id').interpolation) := by
  induction l generalizing ws with
  | nil => exact ⟨rfl, fun _ => rfl⟩
  | cons a t ih =>
    rw [List.foldl_cons]
    obtain ⟨i1, i2⟩ := ih (markReleased (ws.2.idxContainers a) ws |>.1,
      { (markReleased (ws.2.idxContainers a) ws).2 with
          idxContainers := updFun (markReleased (ws.2.idxContainers a) ws).2.idxContainers a none })
    obtain ⟨m1, m2, m3, m4⟩ := markReleased_facts (ws.2.idxContainers a) ws
    constructor
    · rw [i1]
      exact m1
    · intro id'
      rw [i2 id']
      exact m2 id'

theorem captureContainers_memoInv (pred : ℕ → Bool) (root : SceneForest) (ws : WS)
    (h : memoInv pred ws) :
    memoInv pred (captureContainers pred root ws) := by
  simp only [captureContainers]
  have hlist : memoInv pred (captureList pred root (ws.1, { ws.2 with idxCount := 0 })) := by
    refine captureList_preserve pred (memoInv pred)
      (fun id recurse x hrec hx => captureStep_memoInv pred id recurse x hrec hx) root _ ?_
    refine memoInv_congr pred _ ws (fun id' => rfl) (fun id' => rfl) h
  obtain ⟨t1, t2⟩ := tailFold_facts
    (List.range' (captureList pred root (ws.1, { ws.2 with idxCount := 0 })).2.maxIdx
      ((captureList pred root (ws.1, { ws.2 with idxCount := 0 })).2.prevIdxCount -
        (captureList pred root (ws.1, { ws.2 with idxCount := 0 })).2.maxIdx))
    (captureList pred root (ws.1, { ws.2 with idxCount := 0 }))
  refine memoInv_congr pred _ (captureList pred root (ws.1, { ws.2 with idxCount := 0 }))
    ?_ ?_ hlist
  · intro id'
    exact congrFun t1 id'
  · intro id'
    exact t2 id'

/-- Multiple capture passes keep the getDefaultInterpolation memoization
invariant. -/
theorem capturePasses_memoInv (pred : ℕ → Bool) (roots : List SceneForest)
    (ws : WS) (h : memoInv pred ws) :
    memoInv pred (roots.foldl (fun a root => captureContainers pred root a) ws) := by
  induction roots generalizing ws with
  | nil => simpa using h
  | cons r rs ih =>
    rw [List.foldl_cons]
    exact ih _ (captureContainers_memoInv pred r ws h)

end InterpolatedTicker

open InterpolatedTicker in
/-- C8, amended: in InterpolatedTicker, for any sequence of capture passes
over any trees, a node whose tri-state flag is unset has
getDefaultInterpolation evaluated at most once over its lifetime, and when
it has been evaluated exactly once the boolean result is cached on the
node's interpolation flag.  (In ContainerInterpolator only a true default
is cached; see the counterexample.) -/
theorem C8_amended_memoized_eligibility (pred : ℕ → Bool) (ws : InterpolatedTicker.WS)
    (roots : List SceneForest)
    (h0 : ∀ id, ws.2.defaultEvals id = 0) (id : ℕ) :
    (roots.foldl (fun a root => captureContainers pred root a) ws).2.defaultEvals id ≤ 1
    ∧ ((roots.foldl (fun a root => captureContainers pred root a) ws).2.defaultEvals id = 1 →
       ((roots.foldl (fun a root => captureContainers pred root a) ws).1 id).interpolation
         = some (pred id)) := by
  have hK0 : memoInv pred ws := by
    intro id'
    refine ⟨by rw [h0]; omega, fun _ => h0 id', fun h1 => ?_⟩
    rw [h0 id'] at h1
    exact absurd h1 (by omega)
  have hK := capturePasses_memoInv pred roots ws hK0
  obtain ⟨k1, k2, k3⟩ := hK id
  exact ⟨k1, k3⟩

open InterpolatedTicker in
/-- The tail-release loop of _captureContainers is dead code: started from
any state in which _prevIdxContainersCount does not exceed _maxIdx (as
every state reachable by capture passes is, since each pass ends by setting
_prevIdxContainersCount := _maxIdx and _maxIdx never decreases), the loop
releases nothing, and the pass re-establishes the same condition. -/
theorem captureContainers_tail_dead :
    ∀ (pred : ℕ → Bool) (root : SceneForest) (ws : InterpolatedTicker.WS),
      ws.2.prevIdxCount ≤ ws.2.maxIdx →
      (captureContainers pred root ws).2.releasedIdx
        = (captureList pred root (ws.1, { ws.2 with idxCount := 0 })).2.releasedIdx
      ∧ (captureContainers pred root ws).2.prevIdxCount
        = (captureContainers pred root ws).2.maxIdx := by
  intro pred root ws hinv
  have hprev : (captureList pred root (ws.1, { ws.2 with idxCount := 0 })).2.prevIdxCount
      = ws.2.prevIdxCount := captureList_prevIdxCount pred root _
  have hmax : ws.2.maxIdx ≤ (captureList pred root (ws.1, { ws.2 with idxCount := 0 })).2.maxIdx :=
    captureList_maxIdx_mono pred root (ws.1, { ws.2 with idxCount := 0 })
  have hz : (captureList pred root (ws.1, { ws.2 with idxCount := 0 })).2.prevIdxCount
      - (captureList pred root (ws.1, { ws.2 with idxCount := 0 })).2.maxIdx = 0 := by
    omega
  simp only [captureContainers]
  rw [hz, List.range'_zero, List.foldl_nil]
  exact ⟨by trivial, by trivial⟩

open InterpolatedTicker in
/-- C4: code-bug evaluation at the failing input.  Capturing 5 eligible
nodes (root 0 with children 1-4) and then only 3 of them (children 3 and 4
removed) releases no slots at all: the free list stays empty, nodes 3 and 4
keep their slots 3 and 4, and _prevIdxContainersCount is saved as _maxIdx
= 5 (not as the tracked count 3), so the tail loop from _maxIdx to
_prevIdxContainersCount can never run.  Re-capturing with two new nodes 5
and 6 therefore allocates fresh slots 5 and 6 instead of recycling. -/
theorem C4_tail_cleanup_releases_nothing :
    c4RunTwo.2.releasedIdx = []
    ∧ c4RunTwo.2.idxCount = 3
    ∧ c4RunTwo.2.maxIdx = 5
    ∧ c4RunTwo.2.prevIdxCount = 5
    ∧ (c4RunTwo.1 3).interpIdx = some 3
    ∧ (c4RunTwo.1 4).interpIdx = some 4
    ∧ (c4Run.1 5).interpIdx = some 5
    ∧ (c4Run.1 6).interpIdx = some 6
    ∧ c4Run.2.maxIdx = 7
    ∧ c4Run.2.releasedIdx = [] := by
  decide

open ContainerInterpolator in
/-- C8, counterexample: in ContainerInterpolator.capture, a container whose
isInterpolated flag is unset and whose default eligibility evaluates to
false (visible = false) is never cached (isInterpolated ??= true runs only
for eligible containers), so two capture passes evaluate the default
expression twice — more than once per node lifetime. -/
theorem C8_counterexample_negative_default_reevaluated :
    c8Run.2.defaultEvals 0 = 2
    ∧ ¬(c8Run.2.defaultEvals 0 ≤ 1)
    ∧ (c8Run.1 0).isInterpolated = none := by
  decide

open InterpolatedTicker in
/-- Witness for the amended C8: one capture pass over the five-node tree
starting from zero evaluation counts. -/
theorem C8_amended_memoized_eligibility_witness :
    ([c4Forest1].foldl (fun a root => captureContainers (fun _ => true) root a)
      (c4World, c4State)).2.defaultEvals 0 ≤ 1
    ∧ (([c4Forest1].foldl (fun a root => captureContainers (fun _ => true) root a)
        (c4World, c4State)).2.defaultEvals 0 = 1 →
       (([c4Forest1].foldl (fun a root => captureContainers (fun _ => true) root a)
          (c4World, c4State)).1 0).interpolation = some ((fun _ => true) 0)) :=
  C8_amended_memoized_eligibility (fun _ => true) (c4World, c4State) [c4Forest1]
    (fun _ => rfl) 0

namespace ContainerInterpolator

variable {α : Type} [LinearOrderedField α]

theorem store_facts (id : ℕ) (ws : WS α) :
    (store id ws).2.1 = ws.1
    ∧ (store id ws).2.2.maxCapacity = ws.2.maxCapacity
    ∧ (store id ws).2.2.count = ws.2.count + 1
    ∧ ((store id ws).2.2.capacity = ws.2.capacity
       ∨ (store id ws).2.2.capacity = min (ws.2.capacity * 2) ws.2.maxCapacity) := by
  simp only [store]
  split_ifs <;> simp

theorem ciCaptureList_preserve (P : WS α → Prop)
    (hstep : ∀ id recurse ws, (∀ x, P x → P (recurse x)) → P ws →
      P (captureStep id recurse ws)) :
    ∀ (f : SceneForest) (ws : WS α), P ws → P (captureList f ws) := by
  intro f
  induction f with
  | nil =>
    intro ws h
    simpa [captureList] using h
  | cons id cs rest ihcs ihrest =>
    intro ws h
    rw [captureList]
    exact ihrest _ (hstep id _ ws (fun x hx => ihcs x hx) h)

theorem captureStep_capacity (id : ℕ) (recurse : WS α → WS α) (ws : WS α)
    (hrec : ∀ x, x.2.capacity ≤ x.2.maxCapacity ∧ x.2.maxCapacity = ws.2.maxCapacity →
      (recurse x).2.capacity ≤ (recurse x).2.maxCapacity
      ∧ (recurse x).2.maxCapacity = ws.2.maxCapacity)
    (h : ws.2.capacity ≤ ws.2.maxCapacity) :
    (captureStep id recurse ws).2.capacity ≤ (captureStep id recurse ws).2.maxCapacity
    ∧ (captureStep id recurse ws).2.maxCapacity = ws.2.maxCapacity := by
  have hstoreinv : ∀ (x : WS α),
      x.2.capacity ≤ x.2.maxCapacity ∧ x.2.maxCapacity = ws.2.maxCapacity →
      (store id x).2.2.capacity ≤ (store id x).2.2.maxCapacity
      ∧ (store id x).2.2.maxCapacity = ws.2.maxCapacity := by
    intro x hx
    obtain ⟨s1, s2, s3, s4⟩ := store_facts id x
    rcases s4 with s4 | s4
    · constructor
      · rw [s2, s4]
        exact hx.1
      · rw [s2]
        exact hx.2
    · constructor
      · rw [s2, s4]
        exact min_le_right _ _
      · rw [s2]
        exact hx.2
  simp only [captureStep]
  split_ifs
  all_goals
    first
      | exact ⟨h, rfl⟩
      | exact hrec _ ⟨h, rfl⟩
      | exact hstoreinv _ ⟨h, rfl⟩
      | exact hrec _ (hstoreinv _ ⟨h, rfl⟩)

theorem clearTailAux_facts (l : List ℕ) (s : State α) :
    ((l.foldl (fun s j => { s with containers := updFun s.containers j none }) s)).capacity = s.capacity
    ∧ (l.foldl (fun s j => { s with containers := updFun s.containers j none }) s).maxCapacity = s.maxCapacity
    ∧ (l.foldl (fun s j => { s with containers := updFun s.containers j none }) s).count = s.count
    ∧ (l.foldl (fun s j => { s with containers := updFun s.containers j none }) s).diagnostics = s.diagnostics
    ∧ (l.foldl (fun s j => { s with containers := updFun s.containers j none }) s).defaultEvals = s.defaultEvals := by
  induction l generalizing s with
  | nil => exact ⟨rfl, rfl, rfl, rfl, rfl⟩
  | cons a t ih =>
    rw [List.foldl_cons]
    obtain ⟨i1, i2, i3, i4, i5⟩ := ih { s with containers := updFun s.containers a none }
    exact ⟨i1, i2, i3, i4, i5⟩

theorem clearTail_facts (lo hi : ℕ) (s : State α) :
    (clearTail lo hi s).capacity = s.capacity
    ∧ (clearTail lo hi s).maxCapacity = s.maxCapacity
    ∧ (clearTail lo hi s).count = s.count
    ∧ (clearTail lo hi s).diagnostics = s.diagnostics
    ∧ (clearTail lo hi s).defaultEvals = s.defaultEvals :=
  clearTailAux_facts (List.range' lo (hi - lo)) s

/-- Buffer growth is always clamped to maxCapacity: the resize in store
doubles only up to min(capacity * 2, maxCapacity), so a capture pass keeps
capacity within maxCapacity. -/
theorem capture_capacity_bounded (root : SceneForest) (ws : WS α)
    (h : ws.2.capacity ≤ ws.2.maxCapacity) :
    (capture root ws).2.capacity ≤ (capture root ws).2.maxCapacity := by
  have hl := ciCaptureList_preserve
    (fun x => x.2.capacity ≤ x.2.maxCapacity ∧ x.2.maxCapacity = ws.2.maxCapacity)
    ?_ root (ws.1, { ws.2 with count := 0 }) ⟨h, rfl⟩
  · obtain ⟨hc, hm⟩ := hl
    obtain ⟨t1, t2, t3, t4, t5⟩ := clearTail_facts
      (captureList root (ws.1, { ws.2 with count := 0 })).2.count
      (captureList root (ws.1, { ws.2 with count := 0 })).2.prevCount
      (captureList root (ws.1, { ws.2 with count := 0 })).2
    have key : (clearTail (captureList root (ws.1, { ws.2 with count := 0 })).2.count (captureList root (ws.1, { ws.2 with count := 0 })).2.prevCount (captureList root (ws.1, { ws.2 with count := 0 })).2).capacity ≤ (clearTail (captureList root (ws.1, { ws.2 with count := 0 })).2.count (captureList root (ws.1, { ws.2 with count := 0 })).2.prevCount (captureList root (ws.1, { ws.2 with count := 0 })).2).maxCapacity := by
      rw [t1, t2]; exact hc
    exact key
  · intro id recurse ws2 hrec hP
    have h2 := captureStep_capacity id recurse ws2 ?_ hP.1
    · exact ⟨h2.1, h2.2.trans hP.2⟩
    · intro x hx
      obtain ⟨a, b⟩ := hrec x ⟨hx.1, hx.2.trans hP.2⟩
      exact ⟨a, b.trans hP.2.symm⟩

end ContainerInterpolator

open ContainerInterpolator in
/-- C7: Capacity exhaustion is non-fatal.  In general, a capture pass from
any state with capacity within maxCapacity keeps capacity within
maxCapacity (the resize clamps growth).  Concretely, capturing three
eligible containers with maxCapacity = 2 stores the first two, leaves
capacity at 2, emits exactly one diagnostic, leaves the third container's
slot empty, so a blend presents the third container's true values
unblended; a second capture pass runs normally, again counting three and
emitting one more diagnostic. -/
theorem C7_capacity_exhaustion_nonfatal :
    (∀ (root : SceneForest) (ws : ContainerInterpolator.WS ℚ),
        ws.2.capacity ≤ ws.2.maxCapacity →
        (capture root ws).2.capacity ≤ (capture root ws).2.maxCapacity)
    ∧ (capture c7Forest (c7World, c7State)).2.count = 3
    ∧ (capture c7Forest (c7World, c7State)).2.capacity = 2
    ∧ (capture c7Forest (c7World, c7State)).2.diagnostics = 1
    ∧ (capture c7Forest (c7World, c7State)).2.containers 2 = none
    ∧ (blend c7Cfg (1/2) (capture c7Forest (c7World, c7State))).1 2
        = c7World 2
    ∧ (capture c7Forest (capture c7Forest (c7World, c7State))).2.count = 3
    ∧ (capture c7Forest (capture c7Forest (c7World, c7State))).2.diagnostics = 2 := by
  refine ⟨fun root ws h => capture_capacity_bounded root ws h,
    by decide, by decide, by decide, by decide, ?_, by decide, by decide⟩
  rw [ContainerInterpolator.blend,
    blendAux_world_notref c7Cfg (clampUnit (1/2)) _ _ 2 (by decide)]
  decide

open ContainerInterpolator in
/-- C7 witness: the general capacity bound applied at the concrete C7
fixture, whose initial capacity 2 is within maxCapacity 2. -/
theorem C7_capacity_exhaustion_nonfatal_witness :
    (c7World, c7State).2.capacity ≤ (c7World, c7State).2.maxCapacity
    ∧ (capture c7Forest (c7World, c7State)).2.capacity
        ≤ (capture c7Forest (c7World, c7State)).2.maxCapacity :=
  ⟨by decide,
   C7_capacity_exhaustion_nonfatal.1 c7Forest (c7World, c7State) (by decide)⟩

open ContainerInterpolator in
/-- C10: the implicit default eligibility during capture is visibility.
For a non-destroyed container with both tri-state flags unset: if it is
invisible or culled, the capture step only bumps the ghost evaluation
counter — nothing is stored, the flag is not cached, and the children are
never traversed (the result does not mention recurse); if it is visible
and not culled (and a slot is free), the step caches isInterpolated :=
true, stores the container, and recurses into the children.  Concretely,
capturing a tree whose invisible unset-flag root has one child captures
nothing, evaluates the default once for the root and never for the child. -/
theorem C10_default_eligibility_is_visibility :
    (∀ (recurse : ContainerInterpolator.WS ℚ → ContainerInterpolator.WS ℚ)
        (ws : ContainerInterpolator.WS ℚ) (id : ℕ),
        (ws.1 id).destroyed = false →
        (ws.1 id).isInterpolated = none →
        (ws.1 id).hasInterpolatedChildren = none →
        ((((ws.1 id).visible = false ∨ (ws.1 id).culled = true) →
            captureStep id recurse ws = (ws.1, bumpEval ws.2 id))
         ∧ ((ws.1 id).visible = true → (ws.1 id).culled = false →
              ws.2.count < ws.2.capacity →
              captureStep id recurse ws
                = recurse (store id (cacheTrue ws.1 id, bumpEval ws.2 id)).2)))
    ∧ (capture c10Forest (c8World, c8State)).2.count = 0
    ∧ (capture c10Forest (c8World, c8State)).1 0 = c8World 0
    ∧ (capture c10Forest (c8World, c8State)).1 1 = c8World 1
    ∧ (capture c10Forest (c8World, c8State)).2.defaultEvals 0 = 1
    ∧ (capture c10Forest (c8World, c8State)).2.defaultEvals 1 = 0 := by
  refine ⟨?_, by decide, by decide, by decide, by decide, by decide⟩
  intro recurse ws id hd hi hh
  constructor
  · intro hvc
    rcases hvc with hv | hc
    · simp [captureStep, hd, hi, hh, hv]
    · simp [captureStep, hd, hi, hh, hc]
  · intro hv hc hcount
    have hr : (store id (cacheTrue ws.1 id, bumpEval ws.2 id)).1 = true := by
      simp only [store, bumpEval]
      rw [if_neg (by simpa using Nat.not_le.mpr hcount)]
    simp [captureStep, hd, hi, hh, hv, hc, hr]

open ContainerInterpolator in
/-- C10 witness: the ineligible branch of the default policy applied to
the invisible unset-flag container of the C8/C10 fixture. -/
theorem C10_default_eligibility_is_visibility_witness :
    (c8World 0).destroyed = false
    ∧ (c8World 0).isInterpolated = none
    ∧ (c8World 0).hasInterpolatedChildren = none
    ∧ (c8World 0).visible = false
    ∧ ContainerInterpolator.captureStep 0 (fun x => x) (c8World, c8State)
        = (c8World, ContainerInterpolator.bumpEval c8State 0) :=
  ⟨by decide, by decide, by decide, by decide,
   ((C10_default_eligibility_is_visibility.1 (fun x => x) (c8World, c8State) 0
       (by decide) (by decide) (by decide)).1 (Or.inl (by decide)))⟩
